import Mathlib

/-!
# FreeRCT agent-population core: a shallow embedding

Verification development for the agent-population core of FreeRCT
(`src/people.cpp`, `src/fileio.cpp`): the guest pool with its free-slot
cursor, daily-sharded ticking, complaint aggregation, spawn logic, the
staff registry with the mechanic dispatcher, the guests save/load codec,
and the `RcdFile` byte reader.

Machine integers are modelled as `Nat` (resp. `Int` for signed values),
with explicit `% 2^w` reductions where the C++ code can overflow.
The save-game `Saver`/`Loader` primitives and the `Person` bodies are not
part of the given sources; they are modelled from the spec (little-endian
8/16/32-bit primitives, length-prefixed blobs) and marked as such.
-/

namespace FreeRCT

/-! ## Save-game byte stream primitives

Modelled from the spec: the `Saver`/`Loader` classes are not among the
given source files; the spec fixes their contract — primitive puts/gets
for unsigned 8/16/32-bit integers and length-prefixed byte blobs, all
multi-byte integers little-endian, framed in named patterns
(4-byte ASCII name, 32-bit version, body, end marker). -/

/-- Write one byte (the low 8 bits of `v`). -/
def put8 (v : Nat) : List Nat := [v % 256]

/-- Write a 16-bit value, little-endian (`Saver::PutWord`). -/
def put16 (v : Nat) : List Nat := [v % 256, v / 256 % 256]

/-- Write a 32-bit value, little-endian (`Saver::PutLong`). -/
def put32 (v : Nat) : List Nat := put16 (v % 65536) ++ put16 (v / 65536 % 65536)

/-- Write a signed 16-bit value as its two's-complement `uint16` image. -/
def putI16 (v : Int) : List Nat := put16 (v.emod 65536).toNat

/-- Write a length-prefixed blob. -/
def putBlob (d : List Nat) : List Nat := put32 d.length ++ d

/-- Read one byte. -/
def get8 : List Nat → Option (Nat × List Nat)
  | [] => none
  | b :: r => some (b, r)

/-- Read a 16-bit little-endian value (`Loader::GetWord`). -/
def get16 (l : List Nat) : Option (Nat × List Nat) :=
  match get8 l with
  | none => none
  | some (a, r) =>
    match get8 r with
    | none => none
    | some (b, r') => some (a + 256 * b, r')

/-- Read a 32-bit little-endian value (`Loader::GetLong`). -/
def get32 (l : List Nat) : Option (Nat × List Nat) :=
  match get16 l with
  | none => none
  | some (a, r) =>
    match get16 r with
    | none => none
    | some (b, r') => some (a + 65536 * b, r')

/-- Reinterpret a `uint16` value as a signed 16-bit value. -/
def toInt16 (n : Nat) : Int := if n < 32768 then (n : Int) else (n : Int) - 65536

/-- Read a signed 16-bit value. -/
def getI16 (l : List Nat) : Option (Int × List Nat) :=
  match get16 l with
  | none => none
  | some (v, r) => some (toInt16 v, r)

/-- Split off `n` raw bytes. -/
def getBytes (n : Nat) (l : List Nat) : Option (List Nat × List Nat) :=
  if n ≤ l.length then some (l.take n, l.drop n) else none

/-- Read a length-prefixed blob. -/
def getBlob (l : List Nat) : Option (List Nat × List Nat) :=
  match get32 l with
  | none => none
  | some (n, r) => getBytes n r

/-! ## The guest pool data model (`Guests` in `people.cpp`)

A guest slot is `none` when the `Guest` person is dormant and
`some body` when it is active, where `body` is the guest's per-person
state. The `Guest`/`Person` classes are outside the given sources;
modelled from the spec, a guest body is the opaque per-guest state,
persisted by `Person` as raw bytes. The slot at index `i` of the block
has person id `base_id + i` with `base_id = 0` (`Guests::Guests`
constructs `block(0)`), so ids and indices coincide. -/

/-- Opaque per-guest state (`Guest` body). Modelled from the spec:
the `Person` class is external; its save image is an opaque byte
sequence delegated to `Person::Save`/`Person::Load`. -/
abbrev GuestBody := List Nat

/-- The state of the `Guests` pool: exactly the externally visible
fields of the C++ class (`people.cpp` lines 79–97). `guests` is the
fixed `GuestBlock` of `GUEST_BLOCK_SIZE` slots. -/
structure GuestsState where
  startX : Int
  startY : Int
  dailyFrac : Nat
  nextDailyIndex : Nat
  freeIdx : Nat
  ccHunger : Nat
  ccThirst : Nat
  ccWaste : Nat
  ccLitter : Nat
  ccVandalism : Nat
  tsHunger : Nat
  tsThirst : Nat
  tsWaste : Nat
  tsLitter : Nat
  tsVandalism : Nat
  guests : List (Option GuestBody)
deriving DecidableEq, Repr

/-- The `COMPLAINT_TIMEOUT`: milliseconds between two complaint
notifications of one type (`people.cpp` line 26). -/
def COMPLAINT_TIMEOUT : Nat := 8 * 60 * 1000

/-- The `COMPLAINT_THRESHOLD_HUNGER` (`people.cpp` line 27). -/
def COMPLAINT_THRESHOLD_HUNGER : Nat := 80

/-- The `COMPLAINT_THRESHOLD_THIRST` (`people.cpp` line 28). -/
def COMPLAINT_THRESHOLD_THIRST : Nat := 80

/-- The `COMPLAINT_THRESHOLD_WASTE` (`people.cpp` line 29). -/
def COMPLAINT_THRESHOLD_WASTE : Nat := 30

/-- The `COMPLAINT_THRESHOLD_LITTER` (`people.cpp` line 30). -/
def COMPLAINT_THRESHOLD_LITTER : Nat := 25

/-- The `COMPLAINT_THRESHOLD_VANDALISM` (`people.cpp` line 31). -/
def COMPLAINT_THRESHOLD_VANDALISM : Nat := 15

/-- The five player-message kinds sent to the inbox by the complaint
aggregator (`GUI_MESSAGE_COMPLAIN_*`). -/
inductive MsgKind where
  | complainHungry
  | complainThirsty
  | complainToilet
  | complainLitter
  | complainVandalism
deriving DecidableEq, Repr

/-- The fresh pool produced by the `Guests::Guests()` constructor
(`people.cpp` lines 79–97): cursor fields zero, `start_voxel` `(-1,-1)`,
counters zero, timers at `COMPLAINT_TIMEOUT`, all guests dormant. -/
def freshGuests (N : Nat) : GuestsState where
  startX := -1
  startY := -1
  dailyFrac := 0
  nextDailyIndex := 0
  freeIdx := 0
  ccHunger := 0
  ccThirst := 0
  ccWaste := 0
  ccLitter := 0
  ccVandalism := 0
  tsHunger := COMPLAINT_TIMEOUT
  tsThirst := COMPLAINT_TIMEOUT
  tsWaste := COMPLAINT_TIMEOUT
  tsLitter := COMPLAINT_TIMEOUT
  tsVandalism := COMPLAINT_TIMEOUT
  guests := List.replicate N none

/-- Deactivation sweep of `Guests::Uninitialize` (`people.cpp`
lines 106–111): walk the block from index `i`; every active guest is
deactivated (`DeActivate(OAR_REMOVE)`) and returned via `AddFree`, which
lowers `free_idx` to `min i free_idx`. -/
def uninitSweep : Nat → List (Option GuestBody) → Nat → List (Option GuestBody) × Nat
  | _, [], fi => ([], fi)
  | i, none :: t, fi =>
    let p := uninitSweep (i + 1) t fi
    (none :: p.1, p.2)
  | i, some _ :: t, fi =>
    let p := uninitSweep (i + 1) t (min i fi)
    (none :: p.1, p.2)

/-- The `Guests::Uninitialize` (`people.cpp` lines 104–128): deactivate all
guests (with `AddFree`), then reset `start_voxel`, the daily cursor, the
complaint counters and timers. `free_idx` is not reset beyond the
`AddFree` updates. -/
def uninitGuests (s : GuestsState) : GuestsState :=
  let p := uninitSweep 0 s.guests s.freeIdx
  { s with
    guests := p.1
    freeIdx := p.2
    startX := -1
    startY := -1
    dailyFrac := 0
    nextDailyIndex := 0
    ccHunger := 0
    ccThirst := 0
    ccWaste := 0
    ccLitter := 0
    ccVandalism := 0
    tsHunger := COMPLAINT_TIMEOUT
    tsThirst := COMPLAINT_TIMEOUT
    tsWaste := COMPLAINT_TIMEOUT
    tsLitter := COMPLAINT_TIMEOUT
    tsVandalism := COMPLAINT_TIMEOUT }

/-! ## Complaint aggregator (`Guests::Complain*`, `people.cpp` 347–399)

Each `Complain*` increments its `uint16` counter (modelled with an
explicit `% 2^16`); when the channel's timer strictly exceeds
`COMPLAINT_TIMEOUT` and the incremented counter reaches the threshold,
both are reset and one message of the matching kind goes to the inbox.
The returned list holds the messages sent during the call. -/

/-- The `Guests::ComplainHunger` (`people.cpp` lines 347–355). -/
def complainHunger (s : GuestsState) : GuestsState × List MsgKind :=
  let c := (s.ccHunger + 1) % 65536
  if COMPLAINT_TIMEOUT < s.tsHunger ∧ COMPLAINT_THRESHOLD_HUNGER ≤ c then
    ({ s with ccHunger := 0, tsHunger := 0 }, [MsgKind.complainHungry])
  else
    ({ s with ccHunger := c }, [])

/-- The `Guests::ComplainThirst` (`people.cpp` lines 358–366). -/
def complainThirst (s : GuestsState) : GuestsState × List MsgKind :=
  let c := (s.ccThirst + 1) % 65536
  if COMPLAINT_TIMEOUT < s.tsThirst ∧ COMPLAINT_THRESHOLD_THIRST ≤ c then
    ({ s with ccThirst := 0, tsThirst := 0 }, [MsgKind.complainThirsty])
  else
    ({ s with ccThirst := c }, [])

/-- The `Guests::ComplainWaste` (`people.cpp` lines 369–377). -/
def complainWaste (s : GuestsState) : GuestsState × List MsgKind :=
  let c := (s.ccWaste + 1) % 65536
  if COMPLAINT_TIMEOUT < s.tsWaste ∧ COMPLAINT_THRESHOLD_WASTE ≤ c then
    ({ s with ccWaste := 0, tsWaste := 0 }, [MsgKind.complainToilet])
  else
    ({ s with ccWaste := c }, [])

/-- The `Guests::ComplainLitter` (`people.cpp` lines 380–388). -/
def complainLitter (s : GuestsState) : GuestsState × List MsgKind :=
  let c := (s.ccLitter + 1) % 65536
  if COMPLAINT_TIMEOUT < s.tsLitter ∧ COMPLAINT_THRESHOLD_LITTER ≤ c then
    ({ s with ccLitter := 0, tsLitter := 0 }, [MsgKind.complainLitter])
  else
    ({ s with ccLitter := c }, [])

/-- The `Guests::ComplainVandalism` (`people.cpp` lines 391–399). -/
def complainVandalism (s : GuestsState) : GuestsState × List MsgKind :=
  let c := (s.ccVandalism + 1) % 65536
  if COMPLAINT_TIMEOUT < s.tsVandalism ∧ COMPLAINT_THRESHOLD_VANDALISM ≤ c then
    ({ s with ccVandalism := 0, tsVandalism := 0 }, [MsgKind.complainVandalism])
  else
    ({ s with ccVandalism := c }, [])

/-- One complaint call, by channel. -/
inductive ComplainKind where
  | hunger
  | thirst
  | waste
  | litter
  | vandalism
deriving DecidableEq, Repr

/-- Dispatch one `Complain*` call. -/
def complainStep (k : ComplainKind) (s : GuestsState) : GuestsState × List MsgKind :=
  match k with
  | .hunger => complainHunger s
  | .thirst => complainThirst s
  | .waste => complainWaste s
  | .litter => complainLitter s
  | .vandalism => complainVandalism s

/-- Run a sequence of `Complain*` calls, collecting the inbox messages. -/
def runComplaints : List ComplainKind → GuestsState → GuestsState × List MsgKind
  | [], s => (s, [])
  | k :: ks, s =>
    let p := complainStep k s
    let q := runComplaints ks p.1
    (q.1, p.2 ++ q.2)

/-! ## `Guests::OnAnimate` (`people.cpp` lines 272–290)

Advances the five complaint timers by `delay` (`uint32`, modelled with
`% 2^32`), then animates every active guest; a guest whose animation
result is not `OAR_OK` is deactivated and returned via `AddFree`.
`Person::OnAnimate` is external: it is abstracted by a parameter
`anim i b` giving the new body of the guest at slot `i` (or `none` for
a non-`OAR_OK` result). -/

/-- The per-guest animation sweep of `Guests::OnAnimate`: walk the block
from index `i`; an active guest animates to `anim i b`; on `none` it is
deactivated and `AddFree` lowers `free_idx`. -/
def animateSweep (anim : Nat → GuestBody → Option GuestBody) :
    Nat → List (Option GuestBody) → Nat → List (Option GuestBody) × Nat
  | _, [], fi => ([], fi)
  | i, none :: t, fi =>
    let p := animateSweep anim (i + 1) t fi
    (none :: p.1, p.2)
  | i, some b :: t, fi =>
    match anim i b with
    | some b' =>
      let p := animateSweep anim (i + 1) t fi
      (some b' :: p.1, p.2)
    | none =>
      let p := animateSweep anim (i + 1) t (min i fi)
      (none :: p.1, p.2)

/-- The `Guests::OnAnimate` (`people.cpp` lines 272–290). -/
def onAnimate (anim : Nat → GuestBody → Option GuestBody) (delay : Nat)
    (s : GuestsState) : GuestsState :=
  let p := animateSweep anim 0 s.guests s.freeIdx
  { s with
    tsHunger := (s.tsHunger + delay) % 4294967296
    tsThirst := (s.tsThirst + delay) % 4294967296
    tsWaste := (s.tsWaste + delay) % 4294967296
    tsLitter := (s.tsLitter + delay) % 4294967296
    tsVandalism := (s.tsVandalism + delay) % 4294967296
    guests := p.1
    freeIdx := p.2 }

/-! ## C4: the per-channel complaint contract -/

/-- The contract of one `Complain*` call on a channel with threshold
`thr` and message `kind`: the counter is incremented (as a `uint16`);
exactly when the timer strictly exceeds `COMPLAINT_TIMEOUT` and the
incremented counter reaches the threshold, both reset to zero and one
message of kind `kind` is emitted; otherwise no message is emitted and
the timer is unchanged. -/
def ComplainSpec (thr : Nat) (kind : MsgKind) (cc ts : Nat)
    (msgs : List MsgKind) (cc' ts' : Nat) : Prop :=
  msgs = (if COMPLAINT_TIMEOUT < ts ∧ thr ≤ (cc + 1) % 65536 then [kind] else []) ∧
  cc' = (if COMPLAINT_TIMEOUT < ts ∧ thr ≤ (cc + 1) % 65536 then 0 else (cc + 1) % 65536) ∧
  ts' = (if COMPLAINT_TIMEOUT < ts ∧ thr ≤ (cc + 1) % 65536 then 0 else ts)

/-- One guest-side operation touching the hunger channel: a
`ComplainHunger` call or an `OnAnimate(delay)` frame. -/
inductive HungerOp where
  | complain
  | animate (d : Nat)

/-- Total `OnAnimate` time accumulated by a sequence of operations. -/
def hungerDelay : List HungerOp → Nat
  | [] => 0
  | .complain :: t => hungerDelay t
  | .animate d :: t => d + hungerDelay t

/-- Run a sequence of `ComplainHunger`/`OnAnimate` operations,
collecting the inbox messages (`OnAnimate` sends none). -/
def runHungerOps (anim : Nat → GuestBody → Option GuestBody) :
    List HungerOp → GuestsState → GuestsState × List MsgKind
  | [], s => (s, [])
  | .complain :: t, s =>
    let p := complainHunger s
    let q := runHungerOps anim t p.1
    (q.1, p.2 ++ q.2)
  | .animate d :: t, s => runHungerOps anim t (onAnimate anim d s)

/-! ## C10: the `RcdFile` reader (`fileio.cpp`)

`RcdFile` keeps a read position and total file size as `size_t`
(modelled with `% 2^64`). `GetUInt8` and `GetBlob` advance `file_pos`
unconditionally; `Remaining` is guarded against underflow. -/

/-- The `RcdFile` reader state: read position and file size. -/
structure RcdFile where
  filePos : Nat
  fileSize : Nat
deriving DecidableEq, Repr

/-- The `RcdFile::Remaining` (`fileio.cpp` lines 192–196):
`(file_size >= file_pos) ? file_size - file_pos : 0`. -/
def Remaining (f : RcdFile) : Nat :=
  if f.filePos ≤ f.fileSize then f.fileSize - f.filePos else 0

/-- The `RcdFile::GetUInt8` (`fileio.cpp` lines 203–207): `file_pos++`
(position effect; the byte value comes from the underlying `FILE`). -/
def GetUInt8 (f : RcdFile) : RcdFile :=
  { f with filePos := (f.filePos + 1) % 18446744073709551616 }

/-- The `RcdFile::GetBlob` position effect (`fileio.cpp` lines 263–271):
`file_pos += length`, unconditionally. -/
def GetBlob (len : Nat) (f : RcdFile) : RcdFile :=
  { f with filePos := (f.filePos + len) % 18446744073709551616 }

/-- The `RcdFile::GetUInt16`: two `GetUInt8` reads. -/
def GetUInt16 (f : RcdFile) : RcdFile := GetUInt8 (GetUInt8 f)

/-- The `RcdFile::GetInt16`: two `GetUInt8` reads. -/
def GetInt16 (f : RcdFile) : RcdFile := GetUInt8 (GetUInt8 f)

/-- The `RcdFile::GetUInt32`: two `GetUInt16` reads. -/
def GetUInt32 (f : RcdFile) : RcdFile := GetUInt16 (GetUInt16 f)

/-- The `RcdFile` constructor (`fileio.cpp` lines 170–180): position 0,
size from `ftell` at end-of-file. -/
def openRcd (size : Nat) : RcdFile :=
  { filePos := 0, fileSize := size }

/-- One read operation on an `RcdFile`. -/
inductive RcdOp where
  | u8
  | u16
  | i16
  | u32
  | blob (len : Nat)

/-- Run a sequence of reads. -/
def runRcdOps : List RcdOp → RcdFile → RcdFile
  | [], f => f
  | .u8 :: t, f => runRcdOps t (GetUInt8 f)
  | .u16 :: t, f => runRcdOps t (GetUInt16 f)
  | .i16 :: t, f => runRcdOps t (GetInt16 f)
  | .u32 :: t, f => runRcdOps t (GetUInt32 f)
  | .blob len :: t, f => runRcdOps t (GetBlob len f)

/-- Bytes consumed by a sequence of reads. -/
def rcdAdvance : List RcdOp → Nat
  | [] => 0
  | .u8 :: t => 1 + rcdAdvance t
  | .u16 :: t => 2 + rcdAdvance t
  | .i16 :: t => 2 + rcdAdvance t
  | .u32 :: t => 4 + rcdAdvance t
  | .blob len :: t => len + rcdAdvance t

/-! ## C5: person id allocation

Guest ids are assigned densely at construction:
`GuestBlock::GuestBlock(base_id)` (`people.cpp` lines 37–43) gives the
slot at index `i` the id `base_id + i`, and the global pool uses
`base_id = 0`. Staff ids come from `Staff::GenerateID`
(`people.cpp` lines 535–538): `return --last_person_id;`, a `uint16`
pre-decrement starting from `STAFF_BASE_ID = UINT16_MAX`. -/

/-- The `STAFF_BASE_ID` (`people.cpp` line 444). -/
def STAFF_BASE_ID : Nat := 65535

/-- The `Staff::GenerateID`: the `uint16` pre-decrement `--last_person_id`;
the returned id equals the new value of the counter. -/
def generateID (last : Nat) : Nat := (last + 65535) % 65536

/-- The ids of the guest block: slot `i` gets `base_id + i`
(`GuestBlock::GuestBlock`). -/
def guestBlockIds (base N : Nat) : List Nat := (List.range N).map (fun i => base + i)

/-- Combined person-id state: the staff id counter, the ids of hired
staff in hire order, and the guest slots' active flags. -/
structure PersonPool where
  lastPersonId : Nat
  staffIds : List Nat
  guestActive : List Bool
deriving DecidableEq, Repr

/-- Initial state: `last_person_id = STAFF_BASE_ID`
(`Staff::Uninitialize`), no staff, all guest slots dormant. -/
def initPersonPool (N : Nat) : PersonPool :=
  { lastPersonId := STAFF_BASE_ID, staffIds := [], guestActive := List.replicate N false }

/-- One id-relevant operation: hire a staff member of any kind
(each `Hire*` calls `GenerateID`), or activate the guest at slot `i`. -/
inductive PersonOp where
  | hire
  | activateGuest (i : Nat)

/-- Apply one operation. -/
def personStep (s : PersonPool) : PersonOp → PersonPool
  | .hire =>
    { s with
      lastPersonId := generateID s.lastPersonId
      staffIds := s.staffIds ++ [generateID s.lastPersonId] }
  | .activateGuest i => { s with guestActive := s.guestActive.set i true }

/-- Run a sequence of hires and guest activations. -/
def runPersonOps : List PersonOp → PersonPool → PersonPool
  | [], s => s
  | op :: t, s => runPersonOps t (personStep s op)

/-- Number of hires in a sequence. -/
def hireCount : List PersonOp → Nat
  | [] => 0
  | .hire :: t => hireCount t + 1
  | .activateGuest _ :: t => hireCount t

/-- The ids of the currently active guests: slot `i` is person id `i`. -/
def guestIds (s : PersonPool) : List Nat :=
  (List.range s.guestActive.length).filter (fun i => s.guestActive.getD i false)

/-- The ids handed out by the first `H` hires, in order:
`65534, 65533, …, 65535 − H`. -/
def staffIdList (H : Nat) : List Nat := (List.range H).map (fun k => 65534 - k)

/-! ## C6: the free-slot protocol (`people.cpp` 215–238, 405–432)

A slot is active iff it holds `some body`. `free_idx` is a hint: the
code maintains that every slot below it is active. -/

/-- The scan of `Guests::FindNextFreeGuest` (`people.cpp` 215–223):
from `idx` upward, return the index of the first non-active slot
(or an index `≥ gs.length` when every slot from `idx` on is active). -/
def findFrom (gs : List (Option GuestBody)) (idx : Nat) : Nat :=
  if h : idx < gs.length then
    if (gs.get ⟨idx, h⟩).isSome then findFrom gs (idx + 1) else idx
  else idx
termination_by gs.length - idx

/-- The mutating `Guests::FindNextFreeGuest`: update `free_idx` to the
scan result and report whether a free slot exists. -/
def findNextFreeGuest (s : GuestsState) : GuestsState × Bool :=
  ({ s with freeIdx := findFrom s.guests s.freeIdx },
   decide (findFrom s.guests s.freeIdx < s.guests.length))

/-- The `Guests::HasFreeGuests` (`people.cpp` 405–408): the `const` scan
from `free_idx` with a local index. -/
def hasFreeGuests (s : GuestsState) : Bool :=
  decide (findFrom s.guests s.freeIdx < s.guests.length)

/-- The `Guests::GetFree` (`people.cpp` 424–432) followed by the caller's
`Activate` of the returned guest (as in `Guests::OnNewDay`): advance
`free_idx` to the first free slot, hand that slot out (activating it
with `body`) and post-increment `free_idx`. The `assert` on the
precondition `HasFreeGuests()` is modelled by leaving the pool
unchanged when no free slot exists. -/
def getFreeActivate (body : GuestBody) (s : GuestsState) : GuestsState :=
  if findFrom s.guests s.freeIdx < s.guests.length then
    { s with guests := s.guests.set (findFrom s.guests s.freeIdx) (some body)
             freeIdx := findFrom s.guests s.freeIdx + 1 }
  else s

/-- The `Guests::CountActiveGuests` (`people.cpp` 244–252): start from
`free_idx` (slots below it are assumed active) and add the active slots
from `free_idx` on. -/
def countActiveGuests (s : GuestsState) : Nat :=
  s.freeIdx + (s.guests.drop s.freeIdx).countP (fun g => g.isSome)

/-- One pool operation, as performed by the call sites in the source:
`activate` is `Person::Activate` on a slot; `deactivate` is
`Person::DeActivate` followed by `Guests::AddFree` (every deactivation
in `people.cpp` — `Uninitialize`, `OnAnimate`, `DoTick` — does both);
`getFree` is `Guests::GetFree` plus activation of the returned slot;
`addFree` is a bare `Guests::AddFree`. -/
inductive GuestOp where
  | activate (i : Nat) (b : GuestBody)
  | deactivate (i : Nat)
  | getFree (b : GuestBody)
  | addFree (i : Nat)

/-- Apply one pool operation
(`AddFree`: `free_idx = min(index, free_idx)`, `people.cpp` 414–417). -/
def guestOpStep (s : GuestsState) : GuestOp → GuestsState
  | .activate i b => { s with guests := s.guests.set i (some b) }
  | .deactivate i => { s with guests := s.guests.set i none
                              freeIdx := min i s.freeIdx }
  | .getFree b => getFreeActivate b s
  | .addFree i => { s with freeIdx := min i s.freeIdx }

/-- Run a sequence of pool operations. -/
def runGuestOps : List GuestOp → GuestsState → GuestsState
  | [], s => s
  | op :: t, s => runGuestOps t (guestOpStep s op)

/-- The free-cursor invariant: every slot below `free_idx` is active. -/
def FreeInv (s : GuestsState) : Prop :=
  ∀ j, j < s.freeIdx → s.guests[j]? ≠ some none

/-! ## C7: spawn gating in `Guests::OnNewDay` (`people.cpp` 315–331)

The world queries (`_world.GetBaseGroundHeight`, `GetVoxel`,
`HasValidPath`, `GetImplodedPathSlope`) are external collaborators; they
are abstracted by a predicate `good x y` giving the combined voxel test
of `IsGoodEdgeRoad` for in-range coordinates. The RNG
(`rnd.Success1024`) is abstracted by the stream `rng` of its successive
outcomes, consumed one sample per call. -/

/-- The `IsGoodEdgeRoad` (`people.cpp` 51–57): negative coordinates fail
immediately; otherwise the world's voxel test decides. -/
def isGoodEdgeRoad (good : Int → Int → Bool) (x y : Int) : Bool :=
  if x < 0 ∨ y < 0 then false else good x y

/-- The edge coordinates probed by `FindEdgeRoad` (`people.cpp` 63–77),
in scan order: `x` from `1` to `GetXSize()−2` probing `(x, 0)` then
`(x, highest_y)`, then `y` from `1` to `GetYSize()−2` probing `(0, y)`
then `(highest_x, y)`. -/
def edgeCandidates (X Y : Nat) : List (Int × Int) :=
  ((List.range' 1 (X - 2)).flatMap fun x =>
    [((x : Int), 0), ((x : Int), (Y : Int) - 1)]) ++
  ((List.range' 1 (Y - 2)).flatMap fun y =>
    [((0 : Int), (y : Int)), ((X : Int) - 1, (y : Int))])

/-- The `FindEdgeRoad`: the first good edge coordinate in scan order, or
`(-1, -1)` when none qualifies. -/
def findEdgeRoad (good : Int → Int → Bool) (X Y : Nat) : Int × Int :=
  match (edgeCandidates X Y).find? (fun c => isGoodEdgeRoad good c.1 c.2) with
  | some c => c
  | none => (-1, -1)

/-- The `start_voxel` refresh step of `OnNewDay`: keep the cached spawn
voxel while it is still good, otherwise re-run `FindEdgeRoad`. -/
def refreshStartVoxel (good : Int → Int → Bool) (X Y : Nat)
    (s : GuestsState) : GuestsState :=
  if isGoodEdgeRoad good s.startX s.startY then s
  else { s with startX := (findEdgeRoad good X Y).1
                startY := (findEdgeRoad good X Y).2 }

/-- The `Guests::OnNewDay` (`people.cpp` 315–331). Returns the new pool
state, the new RNG stream position, the number of guests activated, and
the inbox messages sent (the source function sends none). -/
def onNewDay (maxGuests : Nat) (good : Int → Int → Bool) (X Y : Nat)
    (rng : Nat → Bool) (body : GuestBody) (s : GuestsState) (k : Nat) :
    GuestsState × Nat × Nat × List MsgKind :=
  if maxGuests ≤ countActiveGuests s then (s, k, 0, [])
  else if ¬ rng k then (s, k + 1, 0, [])
  else if ¬ isGoodEdgeRoad good (refreshStartVoxel good X Y s).startX
      (refreshStartVoxel good X Y s).startY then
    (refreshStartVoxel good X Y s, k + 1, 0, [])
  else if ¬ hasFreeGuests (refreshStartVoxel good X Y s) then
    (refreshStartVoxel good X Y s, k + 1, 0, [])
  else (getFreeActivate body (refreshStartVoxel good X Y s), k + 1, 1, [])

/-- Iterate `OnNewDay` over consecutive days. -/
def iterOnNewDay (maxGuests : Nat) (good : Int → Int → Bool) (X Y : Nat)
    (rng : Nat → Bool) (body : GuestBody) :
    Nat → GuestsState × Nat → GuestsState × Nat
  | 0, p => p
  | n + 1, p =>
    iterOnNewDay maxGuests good X Y rng body n
      ((onNewDay maxGuests good X Y rng body p.1 p.2).1,
       (onNewDay maxGuests good X Y rng body p.1 p.2).2.1)

/-! ## C3: the mechanic dispatcher (`Staff::DoTick`, `people.cpp` 759–783)

A mechanic owns a voxel position and an optional current ride
assignment (`ride == nullptr` means unassigned). A pending request
carries the ride's index and its mechanic-entrance coordinate
(`Ride::GetMechanicEntrance`, an external collaborator). -/

/-- A mechanic: voxel position and optional assignment. -/
structure Mechanic where
  pos : Int × Int × Int
  ride : Option Nat
deriving DecidableEq, Repr

/-- A pending mechanic request: the ride and its entrance coordinate. -/
structure MechanicRequest where
  rideIndex : Nat
  entrance : Int × Int × Int
deriving DecidableEq, Repr

/-- The distance of `Staff::DoTick`:
`|E.x − m.x| + |E.y − m.y| + |E.z − m.z|`. -/
def manhattan (e m : Int × Int × Int) : Nat :=
  (e.1 - m.1).natAbs + (e.2.1 - m.2.1).natAbs + (e.2.2 - m.2.2).natAbs

/-- The mechanic-selection loop of `Staff::DoTick` (`people.cpp`
764–777): scan mechanics in roster order carrying the best candidate
(index and distance); an unassigned mechanic replaces the candidate
only when strictly closer (`best == nullptr || d < distance`). -/
def findBestLoop (e : Int × Int × Int) :
    List Mechanic → Nat → Option (Nat × Nat) → Option (Nat × Nat)
  | [], _, best => best
  | m :: rest, i, best =>
    if m.ride = none then
      match best with
      | none => findBestLoop e rest (i + 1) (some (i, manhattan e m.pos))
      | some (bi, bd) =>
        if manhattan e m.pos < bd then
          findBestLoop e rest (i + 1) (some (i, manhattan e m.pos))
        else
          findBestLoop e rest (i + 1) (some (bi, bd))
    else findBestLoop e rest (i + 1) best

/-- The `Mechanic::Assign` on the roster entry at index `j`. -/
def assignAt : List Mechanic → Nat → Nat → List Mechanic
  | [], _, _ => []
  | m :: t, 0, r => { m with ride := some r } :: t
  | m :: t, j + 1, r => m :: assignAt t j r

/-- The `Staff::DoTick` (`people.cpp` 759–783): with a non-empty request
queue and a non-empty roster, assign the head request to the best
unassigned mechanic and pop it; otherwise leave everything unchanged. -/
def staffDoTick (ms : List Mechanic) (reqs : List MechanicRequest) :
    List Mechanic × List MechanicRequest :=
  match reqs with
  | [] => (ms, reqs)
  | r :: rest =>
    if ms.isEmpty then (ms, reqs)
    else
      match findBestLoop r.entrance ms 0 none with
      | some bi => (assignAt ms bi.1 r.rideIndex, rest)
      | none => (ms, reqs)

/-- The mechanic at roster index `k` exists and is unassigned. -/
def mechUnassigned (ms : List Mechanic) (k : Nat) : Prop :=
  ∃ m, ms[k]? = some m ∧ m.ride = none

/-- The Manhattan distance from the entrance `e` to the mechanic at
roster index `k` (0 when out of range). -/
def mechDist (e : Int × Int × Int) (ms : List Mechanic) (k : Nat) : Nat :=
  match ms[k]? with
  | some m => manhattan e m.pos
  | none => 0

/-- Loop invariant of the selection scan over indices below `bound`:
`none` means no unassigned mechanic seen; `some (bi, bd)` is an
unassigned mechanic of minimal distance, and strictly closer than every
earlier unassigned one. -/
def BestInv (e : Int × Int × Int) (ms : List Mechanic) (bound : Nat) :
    Option (Nat × Nat) → Prop
  | none => ∀ k, k < bound → ¬ mechUnassigned ms k
  | some bi =>
    bi.1 < bound ∧ mechUnassigned ms bi.1 ∧ bi.2 = mechDist e ms bi.1 ∧
    (∀ k, k < bound → mechUnassigned ms k → bi.2 ≤ mechDist e ms k) ∧
    (∀ k, k < bi.1 → mechUnassigned ms k → bi.2 < mechDist e ms k)

/-! ## C2: daily-sharded ticking (`Guests::DoTick`, `people.cpp` 293–309)

`GUEST_BLOCK_SIZE` and `TICK_COUNT_PER_DAY` live in headers outside the
given sources; they appear as the block length `s.guests.length` and a
parameter `T`. `Person::DailyUpdate` is external: it is abstracted by a
parameter `du i b` giving its return value for the guest at slot `i`
with body `b` (`false` means the guest leaves and is deactivated). -/

/-- Whether the slot at index `i` holds an active guest. -/
def isActiveAt (gs : List (Option GuestBody)) (i : Nat) : Bool :=
  match gs[i]? with
  | some (some _) => true
  | _ => false

/-- The loop body of `Guests::DoTick` over the slot indices `idxs`:
each active guest gets a `DailyUpdate` call (recorded in the returned
index list); on a `false` result it is deactivated and `AddFree` lowers
`free_idx`. -/
def dailySweep (du : Nat → GuestBody → Bool) :
    List Nat → List (Option GuestBody) → Nat →
    List (Option GuestBody) × Nat × List Nat
  | [], gs, fi => (gs, fi, [])
  | i :: t, gs, fi =>
    match gs[i]? with
    | some (some b) =>
      if du i b then
        let p := dailySweep du t gs fi
        (p.1, p.2.1, i :: p.2.2)
      else
        let p := dailySweep du t (gs.set i none) (min i fi)
        (p.1, p.2.1, i :: p.2.2)
    | _ => dailySweep du t gs fi

/-- The `end_index = min(daily_frac · N / TICK_COUNT_PER_DAY, N)`
(`people.cpp` line 296). -/
def endIndex (T f N : Nat) : Nat := min (f * N / T) N

/-- The `Guests::DoTick` (`people.cpp` 293–309): increment the `uint16`
`daily_frac`, compute `end_index`, run the daily loop over
`[next_daily_index, end_index)` (after which the cursor sits at
`max next_daily_index end_index`), and reset both cursor fields when
the cursor reaches the block size. Returns the new state and the slots
that received a `DailyUpdate` call. -/
def doTick (T : Nat) (du : Nat → GuestBody → Bool) (s : GuestsState) :
    GuestsState × List Nat :=
  let e := endIndex T ((s.dailyFrac + 1) % 65536) s.guests.length
  let p := dailySweep du (List.range' s.nextDailyIndex (e - s.nextDailyIndex))
    s.guests s.freeIdx
  if s.guests.length ≤ max s.nextDailyIndex e then
    ({ s with dailyFrac := 0
              nextDailyIndex := 0
              guests := p.1
              freeIdx := p.2.1 }, p.2.2)
  else
    ({ s with dailyFrac := (s.dailyFrac + 1) % 65536
              nextDailyIndex := max s.nextDailyIndex e
              guests := p.1
              freeIdx := p.2.1 }, p.2.2)

/-- Iterate `DoTick`, concatenating the per-tick `DailyUpdate` call
lists. -/
def doTicks (T : Nat) (du : Nat → GuestBody → Bool) : Nat → GuestsState → GuestsState × List Nat
  | 0, s => (s, [])
  | n + 1, s =>
    let p := doTick T du s
    let q := doTicks T du n p.1
    (q.1, p.2 ++ q.2)

/-! ## C1: the `GSTS` save/load round trip
(`Guests::Save` 179–209, `Guests::Load` 136–173)

Pattern framing is modelled from the spec: a pattern is a 4-byte ASCII
name, a 32-bit version, the body, and an end marker (the marker's
concrete encoding is unspecified by the spec; a fixed four-byte marker
is used). A guest body is saved as a length-prefixed blob (modelled
from the spec: `Person::Save`/`Load` are external and opaque). -/

/-- The ASCII bytes of the pattern name `"GSTS"`. -/
def GSTS_NAME : List Nat := [71, 83, 84, 83]

/-- The pattern end marker written by `EndPattern`. Modelled from the
spec: the marker's encoding is unspecified; a fixed four-byte value. -/
def END_MARKER : List Nat := [255, 255, 255, 255]

/-- The `Loader::ClosePattern`: consume and verify the end marker. -/
def closePattern (bytes : List Nat) : Option (List Nat) :=
  match getBytes END_MARKER.length bytes with
  | none => none
  | some (m, r) => if m = END_MARKER then some r else none

/-- The per-slot save loop of `Guests::Save` (`people.cpp` 201–207)
over the block from index `i`: each active guest contributes its id
(`base_id + index`, written as a word) followed by its body. -/
def guestEntries : Nat → List (Option GuestBody) → List Nat
  | _, [] => []
  | i, none :: t => guestEntries (i + 1) t
  | i, some b :: t => put16 i ++ putBlob b ++ guestEntries (i + 1) t

/-- The `Guests::Save` (`people.cpp` 179–209): the `GSTS` version-2
pattern. -/
def saveGuests (s : GuestsState) : List Nat :=
  GSTS_NAME ++ put32 2 ++
  putI16 s.startX ++ putI16 s.startY ++
  put16 s.dailyFrac ++ put16 s.nextDailyIndex ++
  put32 s.freeIdx ++
  put16 s.ccHunger ++ put16 s.ccThirst ++ put16 s.ccWaste ++
  put16 s.ccLitter ++ put16 s.ccVandalism ++
  put32 s.tsHunger ++ put32 s.tsThirst ++ put32 s.tsWaste ++
  put32 s.tsLitter ++ put32 s.tsVandalism ++
  put32 (countActiveGuests s) ++
  guestEntries 0 s.guests ++
  END_MARKER

/-- The guest-restore loop of `Guests::Load` (`people.cpp` 163–166):
read `k` entries, each a slot id and a guest body; `block.Get(id)` is
the slot at that index, and the body load re-activates it. -/
def loadEntries : Nat → List (Option GuestBody) → List Nat →
    Option (List (Option GuestBody) × List Nat)
  | 0, gs, bytes => some (gs, bytes)
  | k + 1, gs, bytes =>
    match get16 bytes with
    | none => none
    | some (idx, r) =>
      match getBlob r with
      | none => none
      | some (body, r') => loadEntries k (gs.set idx (some body)) r'

/-- The version-dependent complaint block of `Guests::Load`
(`people.cpp` 150–161): versions above 1 read the five counters and the
five timers; version 1 leaves them as they are. -/
def loadComplaints (version : Nat) (s : GuestsState) (bytes : List Nat) :
    Option (GuestsState × List Nat) :=
  if 1 < version then
    match get16 bytes with
    | none => none
    | some (c1, r1) =>
    match get16 r1 with
    | none => none
    | some (c2, r2) =>
    match get16 r2 with
    | none => none
    | some (c3, r3) =>
    match get16 r3 with
    | none => none
    | some (c4, r4) =>
    match get16 r4 with
    | none => none
    | some (c5, r5) =>
    match get32 r5 with
    | none => none
    | some (t1, r6) =>
    match get32 r6 with
    | none => none
    | some (t2, r7) =>
    match get32 r7 with
    | none => none
    | some (t3, r8) =>
    match get32 r8 with
    | none => none
    | some (t4, r9) =>
    match get32 r9 with
    | none => none
    | some (t5, r10) =>
      some ({ s with ccHunger := c1
                     ccThirst := c2
                     ccWaste := c3
                     ccLitter := c4
                     ccVandalism := c5
                     tsHunger := t1
                     tsThirst := t2
                     tsWaste := t3
                     tsLitter := t4
                     tsVandalism := t5 }, r10)
  else some (s, bytes)

/-- The guest-count-and-loop tail of `Guests::Load`
(`people.cpp` 163–166). -/
def loadGuestList (s : GuestsState) (bytes : List Nat) :
    Option (GuestsState × List Nat) :=
  match get32 bytes with
  | none => none
  | some (k, r) =>
    match loadEntries k s.guests r with
    | none => none
    | some (gs, r') => some ({ s with guests := gs }, r')

/-- The `Guests::Load` (`people.cpp` 136–173) into the pool `s0`: open the
`GSTS` pattern (name mismatch and unsupported versions are fatal),
branch on the version, read the fields, restore the saved guests, close
the pattern. -/
def loadGuests (bytes : List Nat) (s0 : GuestsState) : Option GuestsState :=
  match getBytes GSTS_NAME.length bytes with
  | none => none
  | some (name, r0) =>
    if name = GSTS_NAME then
      match get32 r0 with
      | none => none
      | some (version, r1) =>
        if version = 0 then
          match closePattern r1 with
          | none => none
          | some _ => some s0
        else if version ≤ 2 then
          match getI16 r1 with
          | none => none
          | some (sx, r2) =>
          match getI16 r2 with
          | none => none
          | some (sy, r3) =>
          match get16 r3 with
          | none => none
          | some (df, r4) =>
          match get16 r4 with
          | none => none
          | some (nd, r5) =>
          match get32 r5 with
          | none => none
          | some (fi, r6) =>
            match loadComplaints version
                ({ s0 with startX := sx
                           startY := sy
                           dailyFrac := df
                           nextDailyIndex := nd
                           freeIdx := fi }) r6 with
            | none => none
            | some (s1, r7) =>
              match loadGuestList s1 r7 with
              | none => none
              | some (s2, r8) =>
                match closePattern r8 with
                | none => none
                | some _ => some s2
        else none
    else none

/-- A concrete pool for the round-trip witness: three active guests at
slots 0, 2 and 5, hunger counter 17 (the spec's S6 scenario). -/
def exampleGuests : GuestsState :=
  { freshGuests 6 with
      guests := [some [1], none, some [2, 3], none, none, some []]
      freeIdx := 1
      ccHunger := 17 }

/-! ### Reader-of-writer laws -/

theorem get8_put8 (v : Nat) (rest : List Nat) :
    get8 (put8 v ++ rest) = some (v % 256, rest) := rfl

theorem get16_put16 (v : Nat) (hv : v < 65536) (rest : List Nat) :
    get16 (put16 v ++ rest) = some (v, rest) := by
  simp only [get16, put16, List.cons_append, List.nil_append, get8]
  have h2 : v / 256 % 256 = v / 256 := Nat.mod_eq_of_lt (by omega)
  rw [h2]
  have h3 : v % 256 + 256 * (v / 256) = v := Nat.mod_add_div v 256
  rw [h3]

theorem get32_put32 (v : Nat) (hv : v < 4294967296) (rest : List Nat) :
    get32 (put32 v ++ rest) = some (v, rest) := by
  have h1 : v / 65536 < 65536 := by omega
  have h2 : v % 65536 < 65536 := by omega
  simp only [get32, put32, Nat.mod_eq_of_lt h1, List.append_assoc,
    get16_put16 _ h2, get16_put16 _ h1]
  have h3 : v % 65536 + 65536 * (v / 65536) = v := Nat.mod_add_div v 65536
  rw [h3]

theorem getI16_putI16 (v : Int) (hlo : -32768 ≤ v) (hhi : v < 32768) (rest : List Nat) :
    getI16 (putI16 v ++ rest) = some (v, rest) := by
  have hm : v.emod 65536 = if 0 ≤ v then v else v + 65536 := by
    split
    · exact Int.emod_eq_of_lt ‹0 ≤ v› (by omega)
    · have h1 : (v + 65536).emod 65536 = v.emod 65536 := by
        have h0 : v + 65536 = v + 65536 * 1 := by ring
        rw [h0]
        exact @Int.add_mul_emod_self_left v 65536 1
      rw [← h1]
      exact Int.emod_eq_of_lt (by omega) (by omega)
  have hv16 : (v.emod 65536).toNat < 65536 := by
    rw [hm]; split <;> omega
  simp only [getI16, putI16, get16_put16 _ hv16]
  simp only [toInt16, Option.some.injEq, Prod.mk.injEq, and_true]
  split
  · next h => rw [hm] at h ⊢; split at h <;> omega
  · next h => rw [hm] at h ⊢; split at h <;> omega

theorem getBytes_append (d rest : List Nat) :
    getBytes d.length (d ++ rest) = some (d, rest) := by
  simp [getBytes, List.take_left, List.drop_left]

theorem getBlob_putBlob (d : List Nat) (hd : d.length < 4294967296) (rest : List Nat) :
    getBlob (putBlob d ++ rest) = some (d, rest) := by
  simp only [getBlob, putBlob, List.append_assoc, get32_put32 _ hd]
  exact getBytes_append d rest

/-- Claim C4. Each of the five complaint channels (hunger, thirst, waste,
litter, vandalism) obeys the counter/timer/message contract: every
`Complain*` call increments the channel's `uint16` counter, and exactly
when the channel's timer strictly exceeds the 8-minute timeout and the
incremented counter is at least the channel's threshold (hunger 80,
thirst 80, waste 30, litter 25, vandalism 15), counter and timer reset
to zero and exactly one inbox message of the matching kind is emitted;
otherwise no message is emitted and the timer is unchanged. -/
theorem complain_channels_contract (s : GuestsState) :
    ComplainSpec COMPLAINT_THRESHOLD_HUNGER MsgKind.complainHungry
      s.ccHunger s.tsHunger (complainHunger s).2
      (complainHunger s).1.ccHunger (complainHunger s).1.tsHunger ∧
    ComplainSpec COMPLAINT_THRESHOLD_THIRST MsgKind.complainThirsty
      s.ccThirst s.tsThirst (complainThirst s).2
      (complainThirst s).1.ccThirst (complainThirst s).1.tsThirst ∧
    ComplainSpec COMPLAINT_THRESHOLD_WASTE MsgKind.complainToilet
      s.ccWaste s.tsWaste (complainWaste s).2
      (complainWaste s).1.ccWaste (complainWaste s).1.tsWaste ∧
    ComplainSpec COMPLAINT_THRESHOLD_LITTER MsgKind.complainLitter
      s.ccLitter s.tsLitter (complainLitter s).2
      (complainLitter s).1.ccLitter (complainLitter s).1.tsLitter ∧
    ComplainSpec COMPLAINT_THRESHOLD_VANDALISM MsgKind.complainVandalism
      s.ccVandalism s.tsVandalism (complainVandalism s).2
      (complainVandalism s).1.ccVandalism (complainVandalism s).1.tsVandalism := by
  refine ⟨?_, ?_, ?_, ?_, ?_⟩
  · by_cases h : COMPLAINT_TIMEOUT < s.tsHunger ∧
        COMPLAINT_THRESHOLD_HUNGER ≤ (s.ccHunger + 1) % 65536 <;>
      simp [ComplainSpec, complainHunger, h]
  · by_cases h : COMPLAINT_TIMEOUT < s.tsThirst ∧
        COMPLAINT_THRESHOLD_THIRST ≤ (s.ccThirst + 1) % 65536 <;>
      simp [ComplainSpec, complainThirst, h]
  · by_cases h : COMPLAINT_TIMEOUT < s.tsWaste ∧
        COMPLAINT_THRESHOLD_WASTE ≤ (s.ccWaste + 1) % 65536 <;>
      simp [ComplainSpec, complainWaste, h]
  · by_cases h : COMPLAINT_TIMEOUT < s.tsLitter ∧
        COMPLAINT_THRESHOLD_LITTER ≤ (s.ccLitter + 1) % 65536 <;>
      simp [ComplainSpec, complainLitter, h]
  · by_cases h : COMPLAINT_TIMEOUT < s.tsVandalism ∧
        COMPLAINT_THRESHOLD_VANDALISM ≤ (s.ccVandalism + 1) % 65536 <;>
      simp [ComplainSpec, complainVandalism, h]

/-! ## C9: no complaint message before the first animation step -/

/-- As long as all five complaint timers are at most `COMPLAINT_TIMEOUT`
no `Complain*` call can emit a message (the timers are never advanced by
complaining, so the bound is invariant). -/
theorem runComplaints_quiet (ops : List ComplainKind) (s : GuestsState)
    (h1 : s.tsHunger ≤ COMPLAINT_TIMEOUT) (h2 : s.tsThirst ≤ COMPLAINT_TIMEOUT)
    (h3 : s.tsWaste ≤ COMPLAINT_TIMEOUT) (h4 : s.tsLitter ≤ COMPLAINT_TIMEOUT)
    (h5 : s.tsVandalism ≤ COMPLAINT_TIMEOUT) :
    (runComplaints ops s).2 = [] := by
  induction ops generalizing s with
  | nil => rfl
  | cons k ks ih =>
    cases k
    case hunger =>
      have hc : ¬(COMPLAINT_TIMEOUT < s.tsHunger ∧
          COMPLAINT_THRESHOLD_HUNGER ≤ (s.ccHunger + 1) % 65536) := by
        rintro ⟨hx, -⟩; omega
      simp only [runComplaints, complainStep, complainHunger, if_neg hc]
      simpa using ih ({s with ccHunger := (s.ccHunger + 1) % 65536}) h1 h2 h3 h4 h5
    case thirst =>
      have hc : ¬(COMPLAINT_TIMEOUT < s.tsThirst ∧
          COMPLAINT_THRESHOLD_THIRST ≤ (s.ccThirst + 1) % 65536) := by
        rintro ⟨hx, -⟩; omega
      simp only [runComplaints, complainStep, complainThirst, if_neg hc]
      simpa using ih ({s with ccThirst := (s.ccThirst + 1) % 65536}) h1 h2 h3 h4 h5
    case waste =>
      have hc : ¬(COMPLAINT_TIMEOUT < s.tsWaste ∧
          COMPLAINT_THRESHOLD_WASTE ≤ (s.ccWaste + 1) % 65536) := by
        rintro ⟨hx, -⟩; omega
      simp only [runComplaints, complainStep, complainWaste, if_neg hc]
      simpa using ih ({s with ccWaste := (s.ccWaste + 1) % 65536}) h1 h2 h3 h4 h5
    case litter =>
      have hc : ¬(COMPLAINT_TIMEOUT < s.tsLitter ∧
          COMPLAINT_THRESHOLD_LITTER ≤ (s.ccLitter + 1) % 65536) := by
        rintro ⟨hx, -⟩; omega
      simp only [runComplaints, complainStep, complainLitter, if_neg hc]
      simpa using ih ({s with ccLitter := (s.ccLitter + 1) % 65536}) h1 h2 h3 h4 h5
    case vandalism =>
      have hc : ¬(COMPLAINT_TIMEOUT < s.tsVandalism ∧
          COMPLAINT_THRESHOLD_VANDALISM ≤ (s.ccVandalism + 1) % 65536) := by
        rintro ⟨hx, -⟩; omega
      simp only [runComplaints, complainStep, complainVandalism, if_neg hc]
      simpa using ih ({s with ccVandalism := (s.ccVandalism + 1) % 65536}) h1 h2 h3 h4 h5

/-- Claim C9. In a freshly constructed pool, and after `Uninitialize()`,
all five complaint timers equal exactly `COMPLAINT_TIMEOUT` (8·60·1000
ms); since emission requires the timer to strictly exceed
`COMPLAINT_TIMEOUT`, no sequence of `Complain*` calls starting from
either state can emit an inbox message before the first `OnAnimate`
with a positive delay. -/
theorem complaint_timers_initially_saturated :
    (∀ N, (freshGuests N).tsHunger = COMPLAINT_TIMEOUT ∧
      (freshGuests N).tsThirst = COMPLAINT_TIMEOUT ∧
      (freshGuests N).tsWaste = COMPLAINT_TIMEOUT ∧
      (freshGuests N).tsLitter = COMPLAINT_TIMEOUT ∧
      (freshGuests N).tsVandalism = COMPLAINT_TIMEOUT) ∧
    (∀ s : GuestsState, (uninitGuests s).tsHunger = COMPLAINT_TIMEOUT ∧
      (uninitGuests s).tsThirst = COMPLAINT_TIMEOUT ∧
      (uninitGuests s).tsWaste = COMPLAINT_TIMEOUT ∧
      (uninitGuests s).tsLitter = COMPLAINT_TIMEOUT ∧
      (uninitGuests s).tsVandalism = COMPLAINT_TIMEOUT) ∧
    (∀ (ops : List ComplainKind) (N : Nat),
      (runComplaints ops (freshGuests N)).2 = []) ∧
    (∀ (ops : List ComplainKind) (s : GuestsState),
      (runComplaints ops (uninitGuests s)).2 = []) := by
  refine ⟨fun N => ⟨rfl, rfl, rfl, rfl, rfl⟩,
          fun s => ⟨rfl, rfl, rfl, rfl, rfl⟩, fun ops N => ?_, fun ops s => ?_⟩
  · exact runComplaints_quiet ops _ le_rfl le_rfl le_rfl le_rfl le_rfl
  · exact runComplaints_quiet ops _ le_rfl le_rfl le_rfl le_rfl le_rfl

/-! ## C8: hunger-complaint burst behaviour -/

/-- Splitting a complaint sequence. -/
theorem runComplaints_append (a b : List ComplainKind) (s : GuestsState) :
    runComplaints (a ++ b) s =
      ((runComplaints b (runComplaints a s).1).1,
       (runComplaints a s).2 ++ (runComplaints b (runComplaints a s).1).2) := by
  induction a generalizing s with
  | nil => simp [runComplaints]
  | cons k ks ih => simp [runComplaints, ih]

/-- Below the hunger threshold, `ComplainHunger` calls only count:
`k` calls from a counter value with `counter + k < 80` emit nothing and
add `k` to the counter. -/
theorem runComplaints_hunger_below (k : Nat) (s : GuestsState)
    (h : s.ccHunger + k < 80) :
    runComplaints (List.replicate k ComplainKind.hunger) s =
      ({s with ccHunger := s.ccHunger + k}, []) := by
  induction k generalizing s with
  | zero => simp [runComplaints]
  | succ k ih =>
    rw [List.replicate_succ]
    have hmod : (s.ccHunger + 1) % 65536 = s.ccHunger + 1 :=
      Nat.mod_eq_of_lt (by omega)
    have hc : ¬(COMPLAINT_TIMEOUT < s.tsHunger ∧
        COMPLAINT_THRESHOLD_HUNGER ≤ s.ccHunger + 1) := by
      rintro ⟨-, hx⟩
      unfold COMPLAINT_THRESHOLD_HUNGER at hx
      omega
    simp only [runComplaints, complainStep, complainHunger, hmod, if_neg hc]
    rw [ih ({s with ccHunger := s.ccHunger + 1}) (by simp; omega)]
    have harith : s.ccHunger + 1 + k = s.ccHunger + (k + 1) := by omega
    simp [harith]

/-- While the hunger timer plus all remaining animation time stays
within `COMPLAINT_TIMEOUT`, no hunger message can be emitted. -/
theorem runHungerOps_quiet (anim : Nat → GuestBody → Option GuestBody)
    (ops : List HungerOp) (s : GuestsState)
    (h : s.tsHunger + hungerDelay ops ≤ COMPLAINT_TIMEOUT) :
    (runHungerOps anim ops s).2 = [] := by
  induction ops generalizing s with
  | nil => rfl
  | cons op t ih =>
    cases op
    case complain =>
      simp only [hungerDelay] at h
      have hc : ¬(COMPLAINT_TIMEOUT < s.tsHunger ∧
          COMPLAINT_THRESHOLD_HUNGER ≤ (s.ccHunger + 1) % 65536) := by
        rintro ⟨hx, -⟩; omega
      simp only [runHungerOps, complainHunger, if_neg hc]
      simpa using ih ({s with ccHunger := (s.ccHunger + 1) % 65536}) (by simpa using h)
    case animate d =>
      simp only [hungerDelay] at h
      simp only [runHungerOps]
      apply ih
      have hts : (onAnimate anim d s).tsHunger = s.tsHunger + d := by
        simp only [onAnimate]
        have : s.tsHunger + d < 4294967296 := by unfold COMPLAINT_TIMEOUT at h; omega
        exact Nat.mod_eq_of_lt this
      rw [hts]
      omega

/-- Claim C8, counterexample. The claim asserts that the 80th
`ComplainHunger` call emits a message whenever
`time_since_complaint_hunger ≥ 8·60·1000`; the code requires the timer
to *strictly exceed* the timeout. Concretely: from a fresh pool the
first 79 calls emit nothing and leave the timer at exactly
`COMPLAINT_TIMEOUT = 480000` (so `≥` holds), yet the 80th call emits no
message. -/
theorem complain_hunger_boundary_counterexample :
    (runComplaints (List.replicate 79 ComplainKind.hunger) (freshGuests 0)).2 = [] ∧
    8 * 60 * 1000 ≤
      (runComplaints (List.replicate 79 ComplainKind.hunger) (freshGuests 0)).1.tsHunger ∧
    (complainHunger
      (runComplaints (List.replicate 79 ComplainKind.hunger) (freshGuests 0)).1).2 ≠
      [MsgKind.complainHungry] := by
  refine ⟨?_, ?_, ?_⟩ <;> decide

/-- Claim C8, amended. In the hunger channel, after 79 `ComplainHunger`
calls producing zero messages, the 80th call made while
`time_since_complaint_hunger` *strictly exceeds* 8·60·1000 ms emits
exactly one `GUI_MESSAGE_COMPLAIN_HUNGRY` message and resets counter and
timer to 0; further calls made while the accumulated `OnAnimate` time
since the emission is at most the timeout emit no further message. -/
theorem complain_hunger_burst (s : GuestsState) (h0 : s.ccHunger = 0) :
    (runComplaints (List.replicate 79 ComplainKind.hunger) s).2 = [] ∧
    (runComplaints (List.replicate 79 ComplainKind.hunger) s).1.ccHunger = 79 ∧
    (runComplaints (List.replicate 79 ComplainKind.hunger) s).1.tsHunger = s.tsHunger ∧
    (COMPLAINT_TIMEOUT < s.tsHunger →
      (runComplaints (List.replicate 80 ComplainKind.hunger) s).2 =
        [MsgKind.complainHungry] ∧
      (runComplaints (List.replicate 80 ComplainKind.hunger) s).1.ccHunger = 0 ∧
      (runComplaints (List.replicate 80 ComplainKind.hunger) s).1.tsHunger = 0) ∧
    (∀ (anim : Nat → GuestBody → Option GuestBody) (ops : List HungerOp)
       (s' : GuestsState), s'.tsHunger = 0 →
       hungerDelay ops ≤ COMPLAINT_TIMEOUT →
       (runHungerOps anim ops s').2 = []) := by
  have h79 : runComplaints (List.replicate 79 ComplainKind.hunger) s =
      ({s with ccHunger := 79}, []) := by
    have := runComplaints_hunger_below 79 s (by omega)
    rw [this, h0]
  refine ⟨by rw [h79], by rw [h79], by rw [h79], fun hts => ?_, ?_⟩
  · have hsplit : (List.replicate 80 ComplainKind.hunger) =
        (List.replicate 79 ComplainKind.hunger) ++ [ComplainKind.hunger] := by
      decide
    rw [hsplit, runComplaints_append, h79]
    have hcond : COMPLAINT_TIMEOUT < (({s with ccHunger := 79} : GuestsState)).tsHunger ∧
        COMPLAINT_THRESHOLD_HUNGER ≤ ((({s with ccHunger := 79} : GuestsState)).ccHunger + 1) % 65536 := by
      constructor
      · exact hts
      · show COMPLAINT_THRESHOLD_HUNGER ≤ (79 + 1) % 65536
        decide
    simp only [runComplaints, complainStep, complainHunger, if_pos hcond]
    simp
  · intro anim ops s' hts0 hacc
    exact runHungerOps_quiet anim ops s' (by omega)

/-- Witness for `complain_hunger_burst` at a concrete state: a fresh
pool whose hunger timer has advanced one millisecond past the timeout. -/
theorem complain_hunger_burst_witness :
    (runComplaints (List.replicate 80 ComplainKind.hunger)
      ({freshGuests 0 with tsHunger := 480001})).2 = [MsgKind.complainHungry] := by
  have h := complain_hunger_burst ({freshGuests 0 with tsHunger := 480001}) rfl
  exact (h.2.2.2.1 (by decide)).1

/-- File size is untouched by reads. -/
theorem runRcdOps_fileSize (ops : List RcdOp) (f : RcdFile) :
    (runRcdOps ops f).fileSize = f.fileSize := by
  induction ops generalizing f with
  | nil => rfl
  | cons op t ih =>
    cases op <;> simp only [runRcdOps, GetUInt8, GetUInt16, GetInt16, GetUInt32, GetBlob] <;>
      exact ih _

/-- Reads advance the position by the full read size, independent of
the file size. -/
theorem runRcdOps_filePos (ops : List RcdOp) (f : RcdFile)
    (hf : f.filePos < 18446744073709551616) :
    (runRcdOps ops f).filePos =
      (f.filePos + rcdAdvance ops) % 18446744073709551616 := by
  induction ops generalizing f with
  | nil =>
    simp only [runRcdOps, rcdAdvance]
    omega
  | cons op t ih =>
    cases op <;>
      simp only [runRcdOps, rcdAdvance] <;>
      rw [ih _ (by simp only [GetUInt8, GetUInt16, GetInt16, GetUInt32, GetBlob]; omega)] <;>
      simp only [GetUInt8, GetUInt16, GetInt16, GetUInt32, GetBlob] <;>
      omega

/-- Claim C10. For every `RcdFile` and every sequence of reads,
`Remaining()` equals the truncated difference `file_size − file_pos`
(`file_size − file_pos` when `file_pos ≤ file_size` and `0` otherwise):
it never underflows — even though `GetUInt8`/`GetBlob` advance
`file_pos` by the full read size unconditionally, independent of
`file_size`, including past end-of-file (the advance from a fresh file
is `rcdAdvance ops` whatever `size` is). -/
theorem rcdfile_remaining_no_underflow (ops : List RcdOp) (size : Nat) :
    (runRcdOps ops (openRcd size)).fileSize = size ∧
    (runRcdOps ops (openRcd size)).filePos =
      rcdAdvance ops % 18446744073709551616 ∧
    (∀ f : RcdFile, Remaining f = f.fileSize - f.filePos) ∧
    (∀ f : RcdFile,
      (Remaining f : Int) = max ((f.fileSize : Int) - (f.filePos : Int)) 0) := by
  have hrem : ∀ g : RcdFile, Remaining g = g.fileSize - g.filePos := by
    intro g
    unfold Remaining
    split <;> omega
  refine ⟨runRcdOps_fileSize ops _, ?_, hrem, fun f => ?_⟩
  · have h := runRcdOps_filePos ops (openRcd size) (by simp [openRcd])
    simpa [openRcd] using h
  · rw [hrem f]
    omega

/-- After any prefix with `h` hires done and at most `65535` hires in
total, the counter reads `65535 − h` and the staff ids are
`staffIdList h`; guest-slot length never changes. -/
theorem runPersonOps_invariant (ops : List PersonOp) (s : PersonPool) (h : Nat)
    (hlast : s.lastPersonId = 65535 - h) (hstaff : s.staffIds = staffIdList h)
    (hbound : h + hireCount ops ≤ 65535) :
    (runPersonOps ops s).lastPersonId = 65535 - (h + hireCount ops) ∧
    (runPersonOps ops s).staffIds = staffIdList (h + hireCount ops) ∧
    (runPersonOps ops s).guestActive.length = s.guestActive.length := by
  induction ops generalizing s h with
  | nil => exact ⟨hlast, hstaff, rfl⟩
  | cons op t ih =>
    cases op
    case hire =>
      simp only [hireCount] at hbound ⊢
      have hgen : generateID s.lastPersonId = 65534 - h := by
        unfold generateID
        rw [hlast]
        omega
      simp only [runPersonOps]
      have h1 : (personStep s PersonOp.hire).lastPersonId = 65535 - (h + 1) := by
        simp only [personStep, hgen]
        omega
      have h2 : (personStep s PersonOp.hire).staffIds = staffIdList (h + 1) := by
        simp only [personStep, hgen, hstaff]
        unfold staffIdList
        rw [List.range_succ, List.map_append]
        rfl
      have h3 : (personStep s PersonOp.hire).guestActive = s.guestActive := by
        simp [personStep]
      have h' := ih (personStep s PersonOp.hire) (h + 1) h1 h2 (by omega)
      rw [show h + (hireCount t + 1) = h + 1 + hireCount t by omega]
      exact ⟨h'.1, h'.2.1, by rw [h'.2.2, h3]⟩
    case activateGuest i =>
      simp only [hireCount] at hbound ⊢
      have h1 : (personStep s (PersonOp.activateGuest i)).lastPersonId =
          65535 - h := hlast
      have h2 : (personStep s (PersonOp.activateGuest i)).staffIds =
          staffIdList h := hstaff
      have h' := ih (personStep s (PersonOp.activateGuest i)) h h1 h2 hbound
      simp only [runPersonOps]
      refine ⟨h'.1, h'.2.1, ?_⟩
      rw [h'.2.2]
      simp [personStep]

/-- Membership in the hired-id list is the interval
`[65535 − H, 65535)`. -/
theorem mem_staffIdList (H : Nat) (hH : H ≤ 65535) (x : Nat) :
    x ∈ staffIdList H ↔ 65535 - H ≤ x ∧ x < 65535 := by
  unfold staffIdList
  simp only [List.mem_map, List.mem_range]
  constructor
  · rintro ⟨k, hk, rfl⟩
    omega
  · rintro ⟨hlo, hhi⟩
    exact ⟨65534 - x, by omega, by omega⟩

/-- No id is handed out twice in the first `H ≤ 65535` hires. -/
theorem staffIdList_nodup (H : Nat) (hH : H ≤ 65535) :
    (staffIdList H).Nodup := by
  unfold staffIdList
  refine List.Nodup.map_on ?_ (List.nodup_range H)
  intro x hx y hy hxy
  simp only [List.mem_range] at hx hy
  omega

/-- Claim C5, counterexample. The claim places the staff ids in the
interval `(UINT16_MAX − H, UINT16_MAX]`. After a single hire (`H = 1`)
that interval is `{65535}`, but `Staff::GenerateID` pre-decrements, so
the first hire receives id `65534`, which lies outside the claimed
interval. -/
theorem staff_id_interval_counterexample :
    (runPersonOps [PersonOp.hire] (initPersonPool 4)).staffIds = [65534] ∧
    hireCount [PersonOp.hire] = 1 ∧
    ¬(65535 - 1 < 65534 ∧ 65534 ≤ 65535) := by
  refine ⟨?_, rfl, ?_⟩ <;> decide

/-- Claim C5, amended. For any interleaved sequence of staff hires and
guest activations with `H` lifetime hires, `H ≤ UINT16_MAX −
GUEST_BLOCK_SIZE`, no two active persons share an id: guest ids occupy
exactly `[0, GUEST_BLOCK_SIZE)` (the slot at index `i` has id
`base_id + i` with `base_id = 0`), staff ids occupy exactly the
interval `[UINT16_MAX − H, UINT16_MAX)` (pairwise distinct), and
`last_person_id`, initialised to `UINT16_MAX`, is decremented on each
hire and reads `UINT16_MAX − H`. -/
theorem person_id_disjointness (N : Nat) (ops : List PersonOp)
    (hH : hireCount ops + N ≤ 65535) :
    (runPersonOps ops (initPersonPool N)).lastPersonId = 65535 - hireCount ops ∧
    (∀ x, x ∈ (runPersonOps ops (initPersonPool N)).staffIds ↔
      65535 - hireCount ops ≤ x ∧ x < 65535) ∧
    (runPersonOps ops (initPersonPool N)).staffIds.Nodup ∧
    guestBlockIds 0 N = List.range N ∧
    (∀ i, i ∈ guestIds (runPersonOps ops (initPersonPool N)) → i < N) ∧
    (∀ x ∈ (runPersonOps ops (initPersonPool N)).staffIds,
      ∀ i ∈ guestIds (runPersonOps ops (initPersonPool N)), x ≠ i) := by
  have hinv := runPersonOps_invariant ops (initPersonPool N) 0 rfl rfl (by omega)
  simp only [Nat.zero_add] at hinv
  have hmem := mem_staffIdList (hireCount ops) (by omega)
  refine ⟨hinv.1, ?_, ?_, ?_, ?_, ?_⟩
  · intro x
    rw [hinv.2.1]
    exact hmem x
  · rw [hinv.2.1]
    exact staffIdList_nodup _ (by omega)
  · unfold guestBlockIds
    simp
  · intro i hi
    unfold guestIds at hi
    simp only [List.mem_filter, List.mem_range] at hi
    have hlen : (runPersonOps ops (initPersonPool N)).guestActive.length = N := by
      rw [hinv.2.2]
      simp [initPersonPool]
    omega
  · intro x hx i hi
    rw [hinv.2.1] at hx
    rw [hmem x] at hx
    have hiN : i < N := by
      unfold guestIds at hi
      simp only [List.mem_filter, List.mem_range] at hi
      have hlen : (runPersonOps ops (initPersonPool N)).guestActive.length = N := by
        rw [hinv.2.2]
        simp [initPersonPool]
      omega
    omega

/-- Witness for `person_id_disjointness`: two hires and one guest
activation in a four-slot pool. -/
theorem person_id_disjointness_witness :
    hireCount [PersonOp.hire, PersonOp.activateGuest 0, PersonOp.hire] + 4 ≤ 65535 ∧
    (runPersonOps [PersonOp.hire, PersonOp.activateGuest 0, PersonOp.hire]
      (initPersonPool 4)).lastPersonId = 65535 - 2 :=
  ⟨by decide,
   (person_id_disjointness 4 [PersonOp.hire, PersonOp.activateGuest 0, PersonOp.hire]
     (by decide)).1⟩

/-- Properties of the scan: it moves forward, every slot it passes is
active, the slot it stops on (if in range) is non-active, and it stays
within the block when it starts there. -/
theorem findFrom_props (gs : List (Option GuestBody)) (idx : Nat) :
    idx ≤ findFrom gs idx ∧
    (∀ j, idx ≤ j → j < findFrom gs idx → gs[j]? ≠ some none) ∧
    (findFrom gs idx < gs.length → gs[(findFrom gs idx)]? = some none) ∧
    (idx ≤ gs.length → findFrom gs idx ≤ gs.length) := by
  have key : ∀ n idx, gs.length - idx ≤ n →
      idx ≤ findFrom gs idx ∧
      (∀ j, idx ≤ j → j < findFrom gs idx → gs[j]? ≠ some none) ∧
      (findFrom gs idx < gs.length → gs[(findFrom gs idx)]? = some none) ∧
      (idx ≤ gs.length → findFrom gs idx ≤ gs.length) := by
    intro n
    induction n with
    | zero =>
      intro idx hn
      have hcond : ¬ idx < gs.length := by omega
      rw [findFrom, dif_neg hcond]
      exact ⟨le_refl _, fun j h1 h2 => absurd (lt_of_le_of_lt h1 h2) (lt_irrefl idx),
        fun h => absurd h hcond, fun h => h⟩
    | succ n ih =>
      intro idx hn
      by_cases hlt : idx < gs.length
      · rw [findFrom, dif_pos hlt]
        by_cases hact : (gs.get ⟨idx, hlt⟩).isSome
        · rw [if_pos hact]
          have h' := ih (idx + 1) (by omega)
          refine ⟨by omega, ?_, h'.2.2.1, fun _ => h'.2.2.2 (by omega)⟩
          intro j hj1 hj2
          rcases Nat.eq_or_lt_of_le hj1 with heq | hj
          · intro hcon
            rw [← heq, List.getElem?_eq_getElem hlt] at hcon
            have : gs.get ⟨idx, hlt⟩ = (none : Option GuestBody) := by
              rw [List.get_eq_getElem]
              exact Option.some_injective _ hcon
            rw [this] at hact
            simp at hact
          · exact h'.2.1 j (by omega) hj2
        · rw [if_neg hact]
          refine ⟨le_refl _, fun j h1 h2 => absurd (lt_of_le_of_lt h1 h2) (lt_irrefl idx),
            fun _ => ?_, fun _ => by omega⟩
          rw [List.getElem?_eq_getElem hlt]
          have : gs.get ⟨idx, hlt⟩ = (none : Option GuestBody) := by
            cases hg : gs.get ⟨idx, hlt⟩
            · rfl
            · rw [hg] at hact
              simp at hact
          rw [List.get_eq_getElem] at this
          rw [this]
      · rw [findFrom, dif_neg hlt]
        exact ⟨le_refl _, fun j h1 h2 => absurd (lt_of_le_of_lt h1 h2) (lt_irrefl idx),
          fun h => absurd h hlt, fun h => h⟩
  exact key (gs.length - idx) idx (le_refl _)

/-- The `List.set` never changes the length; hence neither does any pool
operation. -/
theorem runGuestOps_length (ops : List GuestOp) (s : GuestsState) :
    (runGuestOps ops s).guests.length = s.guests.length := by
  induction ops generalizing s with
  | nil => rfl
  | cons op t ih =>
    rw [runGuestOps, ih]
    cases op with
    | activate i b => simp [guestOpStep]
    | deactivate i => simp [guestOpStep]
    | getFree b =>
      simp only [guestOpStep, getFreeActivate]
      split
      · simp
      · rfl
    | addFree i => rfl

/-- Every pool operation preserves the free-cursor invariant. -/
theorem guestOpStep_inv (s : GuestsState) (op : GuestOp) (h : FreeInv s) :
    FreeInv (guestOpStep s op) := by
  cases op with
  | activate i b =>
    intro j hj
    simp only [guestOpStep] at hj ⊢
    by_cases hij : i = j
    · subst hij
      by_cases hlen : i < s.guests.length
      · rw [List.getElem?_set_eq_of_lt _ hlen]
        simp
      · rw [List.set_eq_of_length_le (by omega)]
        exact h i hj
    · rw [List.getElem?_set_ne hij]
      exact h j hj
  | deactivate i =>
    intro j hj
    simp only [guestOpStep] at hj ⊢
    rw [List.getElem?_set_ne (by omega)]
    exact h j (by omega)
  | getFree b =>
    intro j hj
    simp only [guestOpStep, getFreeActivate] at hj ⊢
    by_cases hf : findFrom s.guests s.freeIdx < s.guests.length
    · rw [if_pos hf] at hj ⊢
      simp only at hj ⊢
      by_cases hji : findFrom s.guests s.freeIdx = j
      · rw [← hji, List.getElem?_set_eq_of_lt _ hf]
        simp
      · rw [List.getElem?_set_ne hji]
        by_cases hjf : j < s.freeIdx
        · exact h j hjf
        · exact (findFrom_props s.guests s.freeIdx).2.1 j (by omega) (by omega)
    · rw [if_neg hf] at hj ⊢
      exact h j hj
  | addFree i =>
    intro j hj
    simp only [guestOpStep] at hj ⊢
    exact h j (by omega)

/-- The invariant holds in every reachable state. -/
theorem runGuestOps_inv (ops : List GuestOp) (s : GuestsState) (h : FreeInv s) :
    FreeInv (runGuestOps ops s) := by
  induction ops generalizing s with
  | nil => exact h
  | cons op t ih => exact ih _ (guestOpStep_inv s op h)

/-- Under the invariant, the scan from `free_idx` finds a free slot iff
one exists anywhere in the block. -/
theorem hasFree_iff (s : GuestsState) (h : FreeInv s) :
    hasFreeGuests s = true ↔
      ∃ j, j < s.guests.length ∧ s.guests[j]? = some none := by
  unfold hasFreeGuests
  rw [decide_eq_true_iff]
  constructor
  · intro hlt
    exact ⟨findFrom s.guests s.freeIdx, hlt,
      (findFrom_props s.guests s.freeIdx).2.2.1 hlt⟩
  · rintro ⟨j, hj, hnone⟩
    by_contra hge
    push_neg at hge
    by_cases hjf : j < s.freeIdx
    · exact h j hjf hnone
    · exact (findFrom_props s.guests s.freeIdx).2.1 j (by omega) (by omega) hnone

/-- Claim C6. After any sequence of `Activate`, `Deactivate` (paired with
`AddFree`, as at every deactivation site in the source), `GetFree` and
`AddFree` operations starting from a fresh pool, calling the mutating
`FindNextFreeGuest()` and then `HasFreeGuests()` returns `true` exactly
when some slot `i` in `[0, GUEST_BLOCK_SIZE)` is non-active. -/
theorem free_guest_search_correct (ops : List GuestOp) (N : Nat) :
    (runGuestOps ops (freshGuests N)).guests.length = N ∧
    (hasFreeGuests (findNextFreeGuest (runGuestOps ops (freshGuests N))).1 = true ↔
      ∃ i, i < N ∧ (runGuestOps ops (freshGuests N)).guests[i]? = some none) := by
  have hinv : FreeInv (runGuestOps ops (freshGuests N)) :=
    runGuestOps_inv ops (freshGuests N) (by intro j hj; simp [freshGuests] at hj)
  have hlenN : (runGuestOps ops (freshGuests N)).guests.length = N := by
    rw [runGuestOps_length]
    simp [freshGuests]
  refine ⟨hlenN, ?_⟩
  have hinv' : FreeInv (findNextFreeGuest (runGuestOps ops (freshGuests N))).1 := by
    intro j hj
    simp only [findNextFreeGuest] at hj ⊢
    by_cases hjf : j < (runGuestOps ops (freshGuests N)).freeIdx
    · exact hinv j hjf
    · exact (findFrom_props (runGuestOps ops (freshGuests N)).guests
        (runGuestOps ops (freshGuests N)).freeIdx).2.1 j (by omega) hj
  rw [hasFree_iff _ hinv']
  simp only [findNextFreeGuest]
  rw [hlenN]

/-- In a world whose voxel test never passes, `OnNewDay` never touches
the guest slots or the free cursor. -/
theorem onNewDay_bad_world (maxGuests : Nat) (good : Int → Int → Bool)
    (X Y : Nat) (rng : Nat → Bool) (body : GuestBody) (s : GuestsState)
    (k : Nat) (hbad : ∀ x y, good x y = false) :
    (onNewDay maxGuests good X Y rng body s k).1.guests = s.guests ∧
    (onNewDay maxGuests good X Y rng body s k).1.freeIdx = s.freeIdx := by
  have hroad : ∀ x y, isGoodEdgeRoad good x y = false := by
    intro x y
    unfold isGoodEdgeRoad
    split
    · rfl
    · exact hbad x y
  unfold onNewDay
  split
  · exact ⟨rfl, rfl⟩
  · split
    · exact ⟨rfl, rfl⟩
    · split
      · unfold refreshStartVoxel
        split <;> exact ⟨rfl, rfl⟩
      · next h3 =>
        exact absurd (hroad _ _) (by simpa using h3)

/-- Claim C7. Each `Guests::OnNewDay()` call activates at most one guest,
and it activates one exactly when the four gates hold in order: the
active count is below `max_guests`, the RNG sample succeeds, the spawn
voxel (the cached `start_voxel` if still good, else a fresh
`FindEdgeRoad` result) is a good edge road, and a free slot is
available; no inbox message is ever emitted, and in a world with no
valid edge path any number of `OnNewDay` calls leaves zero guests
active. -/
theorem on_new_day_gating (maxGuests : Nat) (good : Int → Int → Bool)
    (X Y : Nat) (rng : Nat → Bool) (body : GuestBody) (s : GuestsState)
    (k : Nat) (N n : Nat) :
    (onNewDay maxGuests good X Y rng body s k).2.2.1 ≤ 1 ∧
    ((onNewDay maxGuests good X Y rng body s k).2.2.1 = 1 ↔
      (countActiveGuests s < maxGuests ∧ rng k = true ∧
       isGoodEdgeRoad good (refreshStartVoxel good X Y s).startX
         (refreshStartVoxel good X Y s).startY = true ∧
       hasFreeGuests (refreshStartVoxel good X Y s) = true)) ∧
    (onNewDay maxGuests good X Y rng body s k).2.2.2 = [] ∧
    ((∀ x y, good x y = false) →
      countActiveGuests
        (iterOnNewDay maxGuests good X Y rng body n (freshGuests N, 0)).1 = 0) := by
  refine ⟨?_, ?_, ?_, ?_⟩
  · unfold onNewDay
    split
    · exact Nat.zero_le 1
    · split
      · exact Nat.zero_le 1
      · split
        · exact Nat.zero_le 1
        · split
          · exact Nat.zero_le 1
          · exact le_refl 1
  · unfold onNewDay
    split
    · next h1 =>
      constructor
      · intro hc
        exact absurd (show (0 : Nat) = 1 from hc) (by omega)
      · rintro ⟨hc, -, -, -⟩
        exact absurd hc (by omega)
    · next h1 =>
      split
      · next h2 =>
        constructor
        · intro hc
          exact absurd (show (0 : Nat) = 1 from hc) (by omega)
        · rintro ⟨-, hc, -, -⟩
          exact absurd hc h2
      · next h2 =>
        split
        · next h3 =>
          constructor
          · intro hc
            exact absurd (show (0 : Nat) = 1 from hc) (by omega)
          · rintro ⟨-, -, hc, -⟩
            exact absurd hc h3
        · next h3 =>
          split
          · next h4 =>
            constructor
            · intro hc
              exact absurd (show (0 : Nat) = 1 from hc) (by omega)
            · rintro ⟨-, -, -, hc⟩
              exact absurd hc h4
          · next h4 =>
            constructor
            · intro _
              exact ⟨by omega, by simpa using h2, by simpa using h3, by simpa using h4⟩
            · intro _
              rfl
  · unfold onNewDay
    split
    · rfl
    · split
      · rfl
      · split
        · rfl
        · split
          · rfl
          · rfl
  · intro hbad
    have step : ∀ (p : GuestsState × Nat),
        p.1.guests = (freshGuests N).guests → p.1.freeIdx = 0 →
        ∀ m, (iterOnNewDay maxGuests good X Y rng body m p).1.guests =
            (freshGuests N).guests ∧
          (iterOnNewDay maxGuests good X Y rng body m p).1.freeIdx = 0 := by
      intro p hg hf m
      induction m generalizing p with
      | zero => exact ⟨hg, hf⟩
      | succ m ih =>
        have hb := onNewDay_bad_world maxGuests good X Y rng body p.1 p.2 hbad
        exact ih _ (by rw [hb.1, hg]) (by rw [hb.2, hf])
    have h := step (freshGuests N, 0) rfl rfl n
    unfold countActiveGuests
    rw [h.1, h.2]
    simp only [freshGuests, List.drop_zero, Nat.zero_add]
    induction N with
    | zero => rfl
    | succ N ihN =>
      rw [List.replicate_succ, List.countP_cons]
      simp

/-- Witness for `on_new_day_gating`: three days in a pathless 4×4
world with two guest slots leave the pool empty. -/
theorem on_new_day_gating_witness :
    countActiveGuests
      (iterOnNewDay 5 (fun _ _ => false) 4 4 (fun _ => true) [] 3
        (freshGuests 2, 0)).1 = 0 :=
  (on_new_day_gating 5 (fun _ _ => false) 4 4 (fun _ => true) []
    (freshGuests 2) 0 2 3).2.2.2 (fun _ _ => rfl)

/-- The selection loop established the invariant at the full roster. -/
theorem findBestLoop_go (e : Int × Int × Int) (ms : List Mechanic) :
    ∀ (l : List Mechanic) (i : Nat) (best : Option (Nat × Nat)),
    ms.drop i = l → BestInv e ms i best →
    BestInv e ms (max i ms.length) (findBestLoop e l i best) := by
  intro l
  induction l with
  | nil =>
    intro i best hdrop hinv
    have hlen : ms.length ≤ i := by
      have := congrArg List.length hdrop
      simp only [List.length_drop, List.length_nil] at this
      omega
    rw [findBestLoop]
    rw [Nat.max_eq_left hlen]
    exact hinv
  | cons m rest ih =>
    intro i best hdrop hinv
    have hi : ms[i]? = some m := by
      have h0 : (ms.drop i)[0]? = some m := by rw [hdrop]; simp
      rw [List.getElem?_drop] at h0
      simpa using h0
    have hilen : i < ms.length := by
      by_contra hge
      rw [List.getElem?_eq_none (by omega)] at hi
      exact Option.noConfusion hi
    have hdrop' : ms.drop (i + 1) = rest := by
      have : List.drop 1 (ms.drop i) = List.drop 1 (m :: rest) := by rw [hdrop]
      rw [List.drop_drop] at this
      simpa using this
    have hmax : max i ms.length = max (i + 1) ms.length := by omega
    have hdi : mechDist e ms i = manhattan e m.pos := by
      unfold mechDist
      rw [hi]
    simp only [findBestLoop]
    rw [hmax]
    by_cases hun : m.ride = none
    · rw [if_pos hun]
      cases best with
      | none =>
        apply ih (i + 1) _ hdrop'
        unfold BestInv at hinv ⊢
        refine ⟨by omega, ⟨m, hi, hun⟩, hdi.symm, ?_, ?_⟩
        · intro k hk hu
          rcases Nat.lt_or_ge k i with hki | hki
          · exact absurd hu (hinv k hki)
          · have : k = i := by omega
            rw [this, hdi]
        · intro k hk hu
          exact absurd hu (hinv k hk)
      | some bi =>
        obtain ⟨hb1, hb2, hb3, hb4, hb5⟩ := hinv
        obtain ⟨bj, bd⟩ := bi
        dsimp only at hb1 hb2 hb3 hb4 hb5
        show BestInv e ms ((i + 1) ⊔ ms.length)
          (if manhattan e m.pos < bd then
            findBestLoop e rest (i + 1) (some (i, manhattan e m.pos))
          else findBestLoop e rest (i + 1) (some (bj, bd)))
        by_cases hlt : manhattan e m.pos < bd
        · rw [if_pos hlt]
          apply ih (i + 1) _ hdrop'
          refine ⟨by omega, ⟨m, hi, hun⟩, hdi.symm, ?_, ?_⟩
          · intro k hk hu
            show manhattan e m.pos ≤ mechDist e ms k
            rcases Nat.lt_or_ge k i with hki | hki
            · have h4 := hb4 k hki hu
              omega
            · have hki' : k = i := by omega
              rw [hki', hdi]
          · intro k hk hu
            show manhattan e m.pos < mechDist e ms k
            have h4 := hb4 k (by omega) hu
            omega
        · rw [if_neg hlt]
          apply ih (i + 1) _ hdrop'
          refine ⟨by omega, hb2, hb3, ?_, hb5⟩
          intro k hk hu
          show bd ≤ mechDist e ms k
          rcases Nat.lt_or_ge k i with hki | hki
          · exact hb4 k hki hu
          · have hki' : k = i := by omega
            rw [hki', hdi]
            omega
    · rw [if_neg hun]
      apply ih (i + 1) _ hdrop'
      cases best with
      | none =>
        intro k hk hu
        rcases Nat.lt_or_ge k i with hki | hki
        · exact hinv k hki hu
        · have hki' : k = i := by omega
          obtain ⟨m', hm', hr'⟩ := hu
          rw [hki', hi] at hm'
          have : m = m' := Option.some_injective _ hm'
          rw [← this] at hr'
          exact hun hr'
      | some bi =>
        obtain ⟨hb1, hb2, hb3, hb4, hb5⟩ := hinv
        refine ⟨by omega, hb2, hb3, ?_, hb5⟩
        intro k hk hu
        rcases Nat.lt_or_ge k i with hki | hki
        · exact hb4 k hki hu
        · have hki' : k = i := by omega
          obtain ⟨m', hm', hr'⟩ := hu
          rw [hki', hi] at hm'
          have : m = m' := Option.some_injective _ hm'
          rw [← this] at hr'
          exact absurd hr' hun

/-- The `assignAt` leaves every other roster entry unchanged. -/
theorem assignAt_getElem_ne (ms : List Mechanic) (j r k : Nat) (hk : k ≠ j) :
    (assignAt ms j r)[k]? = ms[k]? := by
  induction ms generalizing j k with
  | nil => rfl
  | cons m t ih =>
    cases j with
    | zero =>
      cases k with
      | zero => exact absurd rfl hk
      | succ k => simp [assignAt]
    | succ j =>
      cases k with
      | zero => simp [assignAt]
      | succ k =>
        simp only [assignAt, List.getElem?_cons_succ]
        exact ih j k (by omega)

/-- The `assignAt` sets the `ride` of the entry at index `j`. -/
theorem assignAt_getElem_self (ms : List Mechanic) (j r : Nat) :
    (assignAt ms j r)[j]? =
      (ms[j]?).map (fun m => { m with ride := some r }) := by
  induction ms generalizing j with
  | nil => rfl
  | cons m t ih =>
    cases j with
    | zero => simp [assignAt]
    | succ j =>
      simp only [assignAt, List.getElem?_cons_succ]
      exact ih j

/-- Claim C3. For every roster of mechanics and every non-empty request
queue, a single `Staff::DoTick()` either assigns the head request to
the unassigned mechanic whose Manhattan distance to the request's
entrance is globally minimal (ties resolved to the earliest mechanic in
roster order: the winner is strictly closer than every earlier
unassigned mechanic) and pops exactly the head — changing no other
roster entry, so at most one assignment happens per tick — or, when no
unassigned mechanic exists (in particular when the roster is empty),
leaves roster and queue unchanged. -/
theorem staff_dotick_dispatch (ms : List Mechanic) (r : MechanicRequest)
    (rest : List MechanicRequest) :
    (∃ j, j < ms.length ∧ mechUnassigned ms j ∧
      (∀ k, k < ms.length → mechUnassigned ms k →
        mechDist r.entrance ms j ≤ mechDist r.entrance ms k) ∧
      (∀ k, k < j → mechUnassigned ms k →
        mechDist r.entrance ms j < mechDist r.entrance ms k) ∧
      staffDoTick ms (r :: rest) = (assignAt ms j r.rideIndex, rest) ∧
      (∀ k, k ≠ j → (assignAt ms j r.rideIndex)[k]? = ms[k]?) ∧
      (assignAt ms j r.rideIndex)[j]? =
        (ms[j]?).map (fun m => { m with ride := some r.rideIndex })) ∨
    ((∀ k, k < ms.length → ¬ mechUnassigned ms k) ∧
      staffDoTick ms (r :: rest) = (ms, r :: rest)) := by
  have hinv0 : BestInv r.entrance ms 0 none := by
    intro k hk
    omega
  have hgo := findBestLoop_go r.entrance ms ms 0 none rfl hinv0
  rw [Nat.max_eq_right (Nat.zero_le _)] at hgo
  cases hbl : findBestLoop r.entrance ms 0 none with
  | none =>
    right
    rw [hbl] at hgo
    refine ⟨hgo, ?_⟩
    by_cases hms : ms.isEmpty
    · simp only [staffDoTick, if_pos hms]
    · simp only [staffDoTick, if_neg hms, hbl]
  | some bi =>
    left
    rw [hbl] at hgo
    obtain ⟨hb1, hb2, hb3, hb4, hb5⟩ := hgo
    refine ⟨bi.1, hb1, hb2, ?_, ?_, ?_, ?_, ?_⟩
    · intro k hk hu
      rw [← hb3]
      exact hb4 k hk hu
    · intro k hk hu
      rw [← hb3]
      exact hb5 k hk hu
    · have hmsne : ms ≠ [] := by
        intro hnil
        rw [hnil] at hb1
        simp at hb1
      have hmse : ¬ (ms.isEmpty = true) := by
        simp only [List.isEmpty_iff]
        exact hmsne
      simp only [staffDoTick, if_neg hmse, hbl]
    · intro k hk
      exact assignAt_getElem_ne ms bi.1 r.rideIndex k hk
    · exact assignAt_getElem_self ms bi.1 r.rideIndex

/-- The daily loop calls `DailyUpdate` exactly on the active slots among
the (distinct) indices it sweeps, in sweep order; slots outside the
swept indices are untouched, and the block length never changes. -/
theorem dailySweep_spec (du : Nat → GuestBody → Bool) (idxs : List Nat)
    (gs : List (Option GuestBody)) (fi : Nat) (hnodup : idxs.Nodup) :
    (dailySweep du idxs gs fi).2.2 = idxs.filter (fun i => isActiveAt gs i) ∧
    (∀ j, j ∉ idxs → (dailySweep du idxs gs fi).1[j]? = gs[j]?) ∧
    (dailySweep du idxs gs fi).1.length = gs.length := by
  induction idxs generalizing gs fi with
  | nil => exact ⟨rfl, fun j _ => rfl, rfl⟩
  | cons i t ih =>
    have hit : i ∉ t := (List.nodup_cons.mp hnodup).1
    have hnd : t.Nodup := (List.nodup_cons.mp hnodup).2
    cases hg : gs[i]? with
    | none =>
      simp only [dailySweep, hg]
      have hact : isActiveAt gs i = false := by
        unfold isActiveAt
        rw [hg]
      obtain ⟨ha, hb, hc⟩ := ih gs fi hnd
      refine ⟨?_, ?_, hc⟩
      · rw [List.filter_cons, hact]
        exact ha
      · intro j hj
        exact hb j (fun hm => hj (List.mem_cons_of_mem i hm))
    | some ob =>
      cases ob with
      | none =>
        simp only [dailySweep, hg]
        have hact : isActiveAt gs i = false := by
          unfold isActiveAt
          rw [hg]
        obtain ⟨ha, hb, hc⟩ := ih gs fi hnd
        refine ⟨?_, ?_, hc⟩
        · rw [List.filter_cons, hact]
          exact ha
        · intro j hj
          exact hb j (fun hm => hj (List.mem_cons_of_mem i hm))
      | some b =>
        have hact : isActiveAt gs i = true := by
          unfold isActiveAt
          rw [hg]
        by_cases hdu : du i b
        · simp only [dailySweep, hg, if_pos hdu]
          obtain ⟨ha, hb, hc⟩ := ih gs fi hnd
          refine ⟨?_, ?_, hc⟩
          · rw [List.filter_cons, hact]
            simpa using ha
          · intro j hj
            exact hb j (fun hm => hj (List.mem_cons_of_mem i hm))
        · simp only [dailySweep, hg, if_neg hdu]
          obtain ⟨ha, hb, hc⟩ := ih (gs.set i none) (min i fi) hnd
          refine ⟨?_, ?_, ?_⟩
          · rw [List.filter_cons, hact]
            rw [ha]
            have hfc : t.filter (fun j => isActiveAt (gs.set i none) j) =
                t.filter (fun j => isActiveAt gs j) := by
              apply List.filter_congr
              intro a hat
              have hia : i ≠ a := fun he => hit (by rw [he]; exact hat)
              unfold isActiveAt
              rw [List.getElem?_set_ne hia]
            rw [hfc]
            simp
          · intro j hj
            have hji : i ≠ j := fun he => hj (he ▸ List.mem_cons_self i t)
            rw [hb j (fun hm => hj (List.mem_cons_of_mem i hm))]
            exact List.getElem?_set_ne hji
          · rw [hc]
            exact List.length_set ..

/-- One `DoTick` from a cursor-invariant state (`next_daily_index`
equals `daily_frac · N / T`, `daily_frac < T`): the swept slots are the
active ones in `[next, endIndex)`, slots outside are untouched, and the
cursor either advances to `(daily_frac + 1, endIndex)` or resets when
the day is complete. -/
theorem doTick_step (T : Nat) (du : Nat → GuestBody → Bool) (s : GuestsState)
    (hT : 0 < T) (hT16 : T ≤ 65535) (hf : s.dailyFrac < T)
    (hN : 0 < s.guests.length)
    (hnext : s.nextDailyIndex = s.dailyFrac * s.guests.length / T) :
    (doTick T du s).2 =
      (List.range' s.nextDailyIndex
        (endIndex T (s.dailyFrac + 1) s.guests.length - s.nextDailyIndex)).filter
        (fun i => isActiveAt s.guests i) ∧
    (doTick T du s).1.guests.length = s.guests.length ∧
    (∀ j, j < s.nextDailyIndex ∨ endIndex T (s.dailyFrac + 1) s.guests.length ≤ j →
      (doTick T du s).1.guests[j]? = s.guests[j]?) ∧
    (s.dailyFrac + 1 = T →
      (doTick T du s).1.dailyFrac = 0 ∧ (doTick T du s).1.nextDailyIndex = 0 ∧
      endIndex T (s.dailyFrac + 1) s.guests.length = s.guests.length) ∧
    (s.dailyFrac + 1 < T →
      (doTick T du s).1.dailyFrac = s.dailyFrac + 1 ∧
      (doTick T du s).1.nextDailyIndex =
        endIndex T (s.dailyFrac + 1) s.guests.length ∧
      (doTick T du s).1.nextDailyIndex =
        (doTick T du s).1.dailyFrac * s.guests.length / T) := by
  have hmod : (s.dailyFrac + 1) % 65536 = s.dailyFrac + 1 :=
    Nat.mod_eq_of_lt (by omega)
  have hfN : s.dailyFrac * s.guests.length / T ≤ s.guests.length := by
    calc s.dailyFrac * s.guests.length / T
        ≤ T * s.guests.length / T :=
          Nat.div_le_div_right (Nat.mul_le_mul_right _ (by omega))
      _ = s.guests.length := Nat.mul_div_cancel_left _ hT
  have hnle : s.nextDailyIndex ≤ endIndex T (s.dailyFrac + 1) s.guests.length := by
    rw [hnext]
    apply Nat.le_min.mpr
    constructor
    · exact Nat.div_le_div_right (Nat.mul_le_mul_right _ (by omega))
    · exact hfN
  have hmaxe : max s.nextDailyIndex (endIndex T (s.dailyFrac + 1) s.guests.length) =
      endIndex T (s.dailyFrac + 1) s.guests.length := Nat.max_eq_right hnle
  have hlast : s.dailyFrac + 1 = T →
      endIndex T (s.dailyFrac + 1) s.guests.length = s.guests.length := by
    intro h
    unfold endIndex
    rw [h, Nat.mul_div_cancel_left _ hT]
    exact Nat.min_self _
  have hmid : s.dailyFrac + 1 < T →
      endIndex T (s.dailyFrac + 1) s.guests.length < s.guests.length := by
    intro h
    unfold endIndex
    have hdiv : (s.dailyFrac + 1) * s.guests.length / T < s.guests.length := by
      rw [Nat.div_lt_iff_lt_mul hT]
      calc (s.dailyFrac + 1) * s.guests.length
          < T * s.guests.length := (Nat.mul_lt_mul_right hN).mpr h
        _ = s.guests.length * T := Nat.mul_comm ..
    omega
  have hreset_iff : (s.guests.length ≤
      max s.nextDailyIndex (endIndex T (s.dailyFrac + 1) s.guests.length)) ↔
      s.dailyFrac + 1 = T := by
    rw [hmaxe]
    constructor
    · intro hle
      by_contra hne
      have := hmid (by omega)
      omega
    · intro h
      rw [hlast h]
  obtain ⟨hs1, hs2, hs3⟩ := dailySweep_spec du
    (List.range' s.nextDailyIndex
      (endIndex T (s.dailyFrac + 1) s.guests.length - s.nextDailyIndex))
    s.guests s.freeIdx (List.nodup_range' ..)
  by_cases hres : s.dailyFrac + 1 = T
  · have hcond := hreset_iff.mpr hres
    simp only [doTick, hmod, if_pos hcond]
    refine ⟨hs1, hs3, ?_, ?_, ?_⟩
    · intro j hj
      apply hs2
      intro hm
      rw [List.mem_range'_1] at hm
      omega
    · intro _
      refine ⟨by trivial, by trivial, hlast hres⟩
    · intro h
      exact absurd hres (by omega)
  · have hcond : ¬ (s.guests.length ≤
        max s.nextDailyIndex (endIndex T (s.dailyFrac + 1) s.guests.length)) := by
      rw [hreset_iff]
      exact hres
    simp only [doTick, hmod, if_neg hcond]
    refine ⟨hs1, hs3, ?_, ?_, ?_⟩
    · intro j hj
      apply hs2
      intro hm
      rw [List.mem_range'_1] at hm
      omega
    · intro h
      exact absurd h hres
    · intro h
      refine ⟨by trivial, hmaxe, ?_⟩
      show max s.nextDailyIndex (endIndex T (s.dailyFrac + 1) s.guests.length) =
        (s.dailyFrac + 1) * s.guests.length / T
      rw [hmaxe]
      have h5 := hmid h
      unfold endIndex at h5 ⊢
      omega

/-- Below the tick count the `min` in `end_index` never bites. -/
theorem endIndex_eq (T f N : Nat) (hT : 0 < T) (hf : f ≤ T) :
    endIndex T f N = f * N / T := by
  unfold endIndex
  have hle : f * N / T ≤ N := by
    calc f * N / T ≤ T * N / T :=
          Nat.div_le_div_right (Nat.mul_le_mul_right _ hf)
      _ = N := Nat.mul_div_cancel_left _ hT
  omega

/-- Splitting a run of ticks. -/
theorem doTicks_add (T : Nat) (du : Nat → GuestBody → Bool) (a b : Nat) :
    ∀ s : GuestsState, doTicks T du (a + b) s =
      ((doTicks T du b (doTicks T du a s).1).1,
       (doTicks T du a s).2 ++ (doTicks T du b (doTicks T du a s).1).2) := by
  induction a with
  | zero =>
    intro s
    simp [doTicks]
  | succ a ih =>
    intro s
    have hsucc : a + 1 + b = (a + b) + 1 := by omega
    rw [hsucc]
    simp only [doTicks]
    rw [ih (doTick T du s).1]
    simp [List.append_assoc]

/-- Finishing the day: from a cursor-invariant state with `k` ticks
left in the day, those `k` ticks sweep exactly the active slots of
`[next_daily_index, N)` in order, reset both cursor fields to zero, and
leave the slots below `next_daily_index` untouched. -/
theorem doTicks_to_reset (T : Nat) (du : Nat → GuestBody → Bool) :
    ∀ (k : Nat) (s : GuestsState), 0 < T → T ≤ 65535 →
    0 < s.guests.length → s.dailyFrac + k = T → 0 < k →
    s.nextDailyIndex = s.dailyFrac * s.guests.length / T →
    (doTicks T du k s).1.dailyFrac = 0 ∧
    (doTicks T du k s).1.nextDailyIndex = 0 ∧
    (doTicks T du k s).1.guests.length = s.guests.length ∧
    (∀ j, j < s.nextDailyIndex →
      (doTicks T du k s).1.guests[j]? = s.guests[j]?) ∧
    (doTicks T du k s).2 =
      (List.range' s.nextDailyIndex (s.guests.length - s.nextDailyIndex)).filter
        (fun i => isActiveAt s.guests i) := by
  intro k
  induction k with
  | zero =>
    intro s _ _ _ _ hk _
    omega
  | succ k ih =>
    intro s hT hT16 hN hfk hkpos hnext
    have hf : s.dailyFrac < T := by omega
    obtain ⟨hc1, hc2, hc3, hc4, hc5⟩ := doTick_step T du s hT hT16 hf hN hnext
    have hnle : s.nextDailyIndex ≤ endIndex T (s.dailyFrac + 1) s.guests.length := by
      rw [hnext, endIndex_eq T _ _ hT (by omega)]
      exact Nat.div_le_div_right (Nat.mul_le_mul_right _ (by omega))
    by_cases hk0 : k = 0
    · subst hk0
      have hres : s.dailyFrac + 1 = T := by omega
      obtain ⟨hr1, hr2, hre⟩ := hc4 hres
      simp only [doTicks]
      refine ⟨hr1, hr2, hc2, ?_, ?_⟩
      · intro j hj
        exact hc3 j (Or.inl hj)
      · rw [List.append_nil, hc1, hre]
    · have hmid : s.dailyFrac + 1 < T := by omega
      obtain ⟨hm1, hm2, hm3⟩ := hc5 hmid
      have hlen' : 0 < (doTick T du s).1.guests.length := by
        rw [hc2]
        exact hN
      have ih' := ih (doTick T du s).1 hT hT16 hlen' (by rw [hm1]; omega)
        (by omega) (by rw [hc2]; exact hm3)
      simp only [doTicks]
      have heN : endIndex T (s.dailyFrac + 1) s.guests.length ≤ s.guests.length :=
        Nat.min_le_right ..
      refine ⟨ih'.1, ih'.2.1, ?_, ?_, ?_⟩
      · rw [ih'.2.2.1, hc2]
      · intro j hj
        rw [ih'.2.2.2.1 j (by rw [hm2]; omega)]
        exact hc3 j (Or.inl hj)
      · rw [hc1, ih'.2.2.2.2]
        have hconv : (List.range' (doTick T du s).1.nextDailyIndex
            ((doTick T du s).1.guests.length -
              (doTick T du s).1.nextDailyIndex)).filter
            (fun i => isActiveAt (doTick T du s).1.guests i) =
          (List.range' (endIndex T (s.dailyFrac + 1) s.guests.length)
            (s.guests.length - endIndex T (s.dailyFrac + 1) s.guests.length)).filter
            (fun i => isActiveAt s.guests i) := by
          rw [hm2, hc2]
          apply List.filter_congr
          intro a ha
          rw [List.mem_range'_1] at ha
          unfold isActiveAt
          rw [hc3 a (Or.inr ha.1)]
        rw [hconv]
        rw [← List.filter_append]
        have hjoin : List.range' s.nextDailyIndex
            (endIndex T (s.dailyFrac + 1) s.guests.length - s.nextDailyIndex) ++
          List.range' (endIndex T (s.dailyFrac + 1) s.guests.length)
            (s.guests.length - endIndex T (s.dailyFrac + 1) s.guests.length) =
          List.range' s.nextDailyIndex (s.guests.length - s.nextDailyIndex) := by
          have h1 : endIndex T (s.dailyFrac + 1) s.guests.length =
              s.nextDailyIndex +
              (endIndex T (s.dailyFrac + 1) s.guests.length - s.nextDailyIndex) := by
            omega
          have h2 : s.guests.length - s.nextDailyIndex =
              (s.guests.length - endIndex T (s.dailyFrac + 1) s.guests.length) +
              (endIndex T (s.dailyFrac + 1) s.guests.length - s.nextDailyIndex) := by
            omega
          rw [h2]
          nth_rewrite 2 [h1]
          exact List.range'_append_1 ..
        rw [hjoin]

/-- A partial day: from a cursor-invariant state, `k` ticks staying
strictly inside the day sweep exactly the active slots of
`[next, (daily_frac + k)·N/T)` in order and leave all other slots
untouched. -/
theorem doTicksMidday (T : Nat) (du : Nat → GuestBody → Bool) :
    ∀ (k : Nat) (s : GuestsState), 0 < T → T ≤ 65535 →
    0 < s.guests.length → s.dailyFrac + k < T →
    s.nextDailyIndex = s.dailyFrac * s.guests.length / T →
    (doTicks T du k s).1.dailyFrac = s.dailyFrac + k ∧
    (doTicks T du k s).1.nextDailyIndex =
      (s.dailyFrac + k) * s.guests.length / T ∧
    (doTicks T du k s).1.guests.length = s.guests.length ∧
    (∀ j, j < s.nextDailyIndex ∨
        (s.dailyFrac + k) * s.guests.length / T ≤ j →
      (doTicks T du k s).1.guests[j]? = s.guests[j]?) ∧
    (doTicks T du k s).2 =
      (List.range' s.nextDailyIndex
        ((s.dailyFrac + k) * s.guests.length / T - s.nextDailyIndex)).filter
        (fun i => isActiveAt s.guests i) := by
  intro k
  induction k with
  | zero =>
    intro s _ _ _ _ hnext
    simp only [doTicks, Nat.add_zero]
    refine ⟨by trivial, hnext, by trivial, fun j _ => by trivial, ?_⟩
    rw [← hnext]
    simp
  | succ k ih =>
    intro s hT hT16 hN hfk hnext
    have hf : s.dailyFrac < T := by omega
    obtain ⟨hc1, hc2, hc3, hc4, hc5⟩ := doTick_step T du s hT hT16 hf hN hnext
    have hmid : s.dailyFrac + 1 < T := by omega
    obtain ⟨hm1, hm2, hm3⟩ := hc5 hmid
    have hnle : s.nextDailyIndex ≤ endIndex T (s.dailyFrac + 1) s.guests.length := by
      rw [hnext, endIndex_eq T _ _ hT (by omega)]
      exact Nat.div_le_div_right (Nat.mul_le_mul_right _ (by omega))
    have hee : endIndex T (s.dailyFrac + 1) s.guests.length =
        (s.dailyFrac + 1) * s.guests.length / T :=
      endIndex_eq T _ _ hT (by omega)
    have hlen' : 0 < (doTick T du s).1.guests.length := by
      rw [hc2]
      exact hN
    have ih' := ih (doTick T du s).1 hT hT16 hlen' (by rw [hm1]; omega)
      (by rw [hc2]; exact hm3)
    have hE1 : (doTick T du s).1.dailyFrac + k = s.dailyFrac + (k + 1) := by
      rw [hm1]
      omega
    have hEmono : (s.dailyFrac + 1) * s.guests.length / T ≤
        (s.dailyFrac + (k + 1)) * s.guests.length / T :=
      Nat.div_le_div_right (Nat.mul_le_mul_right _ (by omega))
    simp only [doTicks]
    refine ⟨?_, ?_, ?_, ?_, ?_⟩
    · rw [ih'.1, hE1]
    · rw [ih'.2.1, hE1, hc2]
    · rw [ih'.2.2.1, hc2]
    · intro j hj
      have hj' : j < (doTick T du s).1.nextDailyIndex ∨
          ((doTick T du s).1.dailyFrac + k) *
            (doTick T du s).1.guests.length / T ≤ j := by
        rcases hj with hj | hj
        · left
          rw [hm2]
          omega
        · right
          rw [hE1, hc2]
          exact hj
      rw [ih'.2.2.2.1 j hj']
      apply hc3
      rcases hj with hj | hj
      · exact Or.inl hj
      · right
        rw [hee]
        omega
    · rw [hc1, ih'.2.2.2.2]
      have hconv : (List.range' (doTick T du s).1.nextDailyIndex
          (((doTick T du s).1.dailyFrac + k) *
            (doTick T du s).1.guests.length / T -
            (doTick T du s).1.nextDailyIndex)).filter
          (fun i => isActiveAt (doTick T du s).1.guests i) =
        (List.range' ((s.dailyFrac + 1) * s.guests.length / T)
          ((s.dailyFrac + (k + 1)) * s.guests.length / T -
            (s.dailyFrac + 1) * s.guests.length / T)).filter
          (fun i => isActiveAt s.guests i) := by
        rw [hm2, hee, hE1, hc2]
        apply List.filter_congr
        intro a ha
        rw [List.mem_range'_1] at ha
        unfold isActiveAt
        rw [hc3 a (Or.inr (by rw [hee]; omega))]
      rw [hconv, ← List.filter_append]
      have hjoin : List.range' s.nextDailyIndex
          (endIndex T (s.dailyFrac + 1) s.guests.length - s.nextDailyIndex) ++
        List.range' ((s.dailyFrac + 1) * s.guests.length / T)
          ((s.dailyFrac + (k + 1)) * s.guests.length / T -
            (s.dailyFrac + 1) * s.guests.length / T) =
        List.range' s.nextDailyIndex
          ((s.dailyFrac + (k + 1)) * s.guests.length / T - s.nextDailyIndex) := by
        rw [hee]
        have h1 : (s.dailyFrac + 1) * s.guests.length / T =
            s.nextDailyIndex +
            ((s.dailyFrac + 1) * s.guests.length / T - s.nextDailyIndex) := by
          rw [hee] at hnle
          omega
        have h2 : (s.dailyFrac + (k + 1)) * s.guests.length / T -
            s.nextDailyIndex =
            ((s.dailyFrac + (k + 1)) * s.guests.length / T -
              (s.dailyFrac + 1) * s.guests.length / T) +
            ((s.dailyFrac + 1) * s.guests.length / T - s.nextDailyIndex) := by
          rw [hee] at hnle
          omega
        rw [h2]
        nth_rewrite 2 [h1]
        exact List.range'_append_1 ..
      rw [hjoin]

/-- Counting in a filtered index range. -/
theorem count_filter_range' (a b : Nat) (p : Nat → Bool) (x : Nat) :
    ((List.range' a b).filter p).count x =
      if a ≤ x ∧ x < a + b ∧ p x = true then 1 else 0 := by
  by_cases hm : x ∈ (List.range' a b).filter p
  · rw [List.count_eq_one_of_mem ((List.nodup_range' ..).filter p) hm]
    rw [List.mem_filter, List.mem_range'_1] at hm
    rw [if_pos ⟨hm.1.1, hm.1.2, hm.2⟩]
  · rw [List.count_eq_zero_of_not_mem hm]
    rw [List.mem_filter, List.mem_range'_1] at hm
    rw [if_neg (fun hcond => hm ⟨⟨hcond.1, hcond.2.1⟩, hcond.2.2⟩)]

/-- Within one `DoTick`, the slots receiving a `DailyUpdate` call are
visited in strictly increasing index order. -/
theorem doTick_called_pairwise (T : Nat) (du : Nat → GuestBody → Bool)
    (s : GuestsState) : ((doTick T du s).2).Pairwise (· < ·) := by
  have h := (dailySweep_spec du
    (List.range' s.nextDailyIndex
      (endIndex T ((s.dailyFrac + 1) % 65536) s.guests.length -
        s.nextDailyIndex)) s.guests s.freeIdx (List.nodup_range' ..)).1
  have he : (doTick T du s).2 = (dailySweep du
      (List.range' s.nextDailyIndex
        (endIndex T ((s.dailyFrac + 1) % 65536) s.guests.length -
          s.nextDailyIndex)) s.guests s.freeIdx).2.2 := by
    simp only [doTick]
    split <;> rfl
  rw [he, h]
  exact (List.pairwise_lt_range' ..).filter _

/-- Claim C2. Starting from any state reachable from a fresh pool (the
cursor invariant `next_daily_index = daily_frac · N / T` with
`daily_frac < T`), over exactly `TICK_COUNT_PER_DAY` consecutive
`DoTick()` calls every guest slot that is active at the start of the
window (hence every slot that stays active throughout) receives exactly
one `DailyUpdate` call, slots are processed in increasing index order
within each tick, and on the tick where the cursor reaches
`GUEST_BLOCK_SIZE` both `daily_frac` and `next_daily_index` reset
to 0. -/
theorem dotick_daily_fairness (T : Nat) (du : Nat → GuestBody → Bool)
    (s : GuestsState) (r : Nat) (hT : 0 < T) (hT16 : T ≤ 65535)
    (hN : 0 < s.guests.length) (hr : r < T) (hfrac : s.dailyFrac = r)
    (hnext : s.nextDailyIndex = r * s.guests.length / T) :
    (∀ i, i < s.guests.length → isActiveAt s.guests i = true →
      (doTicks T du T s).2.count i = 1) ∧
    (∀ s' : GuestsState, ((doTick T du s').2).Pairwise (· < ·)) ∧
    (doTicks T du (T - r) s).1.dailyFrac = 0 ∧
    (doTicks T du (T - r) s).1.nextDailyIndex = 0 := by
  have hnext' : s.nextDailyIndex = s.dailyFrac * s.guests.length / T := by
    rw [hfrac]
    exact hnext
  obtain ⟨hA1, hA2, hA3, hA4, hA5⟩ := doTicks_to_reset T du (T - r) s hT hT16 hN
    (by omega) (by omega) hnext'
  have hN1 : 0 < (doTicks T du (T - r) s).1.guests.length := by
    rw [hA3]
    exact hN
  obtain ⟨hB1, hB2, hB3, hB4, hB5⟩ := doTicksMidday T du r
    (doTicks T du (T - r) s).1 hT hT16 hN1 (by rw [hA1]; omega)
    (by rw [hA2, hA1]; simp)
  have hnextN : s.nextDailyIndex ≤ s.guests.length := by
    rw [hnext]
    calc r * s.guests.length / T
        ≤ T * s.guests.length / T :=
          Nat.div_le_div_right (Nat.mul_le_mul_right _ (by omega))
      _ = s.guests.length := Nat.mul_div_cancel_left _ hT
  refine ⟨?_, fun s' => doTick_called_pairwise T du s', hA1, hA2⟩
  intro i hi hact
  have hTr : doTicks T du T s = doTicks T du ((T - r) + r) s := by
    have h0 : (T - r) + r = T := by omega
    rw [h0]
  rw [hTr, doTicks_add, List.count_append, hA5, hB5]
  have hcv : ∀ j, j < s.nextDailyIndex →
      isActiveAt (doTicks T du (T - r) s).1.guests j = isActiveAt s.guests j := by
    intro j hj
    unfold isActiveAt
    rw [hA4 j hj]
  have hBr : ((doTicks T du (T - r) s).1.dailyFrac + r) *
      (doTicks T du (T - r) s).1.guests.length / T = s.nextDailyIndex := by
    rw [hA1, hA3, hnext]
    simp
  rw [count_filter_range', count_filter_range']
  rw [hA2, hBr]
  by_cases hge : s.nextDailyIndex ≤ i
  · rw [if_pos ⟨hge, by omega, hact⟩]
    rw [if_neg (by rintro ⟨-, hlt, -⟩; omega)]
  · rw [if_neg (by rintro ⟨hc, -, -⟩; omega)]
    rw [if_pos ⟨by omega, by omega, by rw [hcv i (by omega)]; exact hact⟩]

/-- Witness for `dotick_daily_fairness`: a block of 8 always-active
guests under 4 ticks per day, one tick into the day. -/
theorem dotick_daily_fairness_witness :
    (doTicks 4 (fun _ _ => true) 4
      ({freshGuests 8 with
          guests := List.replicate 8 (some ([] : GuestBody))
          dailyFrac := 1
          nextDailyIndex := 2})).2.count 0 = 1 :=
  (dotick_daily_fairness 4 (fun _ _ => true)
    ({freshGuests 8 with
        guests := List.replicate 8 (some ([] : GuestBody))
        dailyFrac := 1
        nextDailyIndex := 2}) 1
    (by decide) (by decide) (by decide) (by decide) (by decide) (by decide)).1
    0 (by decide) (by decide)

/-- Replaying the saved guest entries over a block whose slots from `i`
on are all dormant reconstructs the original slots: the loop reads
exactly `countP isSome` entries and re-activates exactly the saved
slots with their saved bodies. -/
theorem loadEntries_guestEntries :
    ∀ (l F : List (Option GuestBody)) (i : Nat) (rest : List Nat),
    F.length = i + l.length →
    F.drop i = List.replicate l.length none →
    i + l.length < 65536 →
    (∀ b : GuestBody, some b ∈ l → b.length < 4294967296) →
    loadEntries (l.countP (fun g => g.isSome)) F (guestEntries i l ++ rest) =
      some (F.take i ++ l, rest) := by
  intro l
  induction l with
  | nil =>
    intro F i rest hlen hdrop _ _
    simp only [List.countP_nil, guestEntries, List.nil_append, loadEntries]
    rw [List.take_of_length_le (by simp at hlen; omega), List.append_nil]
  | cons g t ih =>
    intro F i rest hlen hdrop hbound hbodies
    have hlt : (g :: t).length = t.length + 1 := rfl
    have hFi : F[i]? = some none := by
      have h0 : (F.drop i)[0]? = some none := by
        rw [hdrop, hlt, List.replicate_succ]
        simp
      rw [List.getElem?_drop] at h0
      simpa using h0
    have hdrop' : F.drop (i + 1) = List.replicate t.length none := by
      have h1 : List.drop 1 (F.drop i) =
          List.drop 1 (List.replicate ((g :: t).length) none) := by rw [hdrop]
      rw [List.drop_drop] at h1
      rw [hlt, List.replicate_succ] at h1
      simpa using h1
    cases g with
    | none =>
      have hcp : List.countP (fun g => g.isSome) (none :: t) =
          t.countP (fun g => g.isSome) := by simp
      rw [hcp]
      simp only [guestEntries]
      rw [ih F (i + 1) rest (by simp at hlen ⊢; omega) hdrop'
        (by simp at hbound; omega)
        (fun b hb => hbodies b (List.mem_cons_of_mem _ hb))]
      rw [List.take_succ, hFi]
      simp
    | some b =>
      have hcp : List.countP (fun g => g.isSome) (some b :: t) =
          t.countP (fun g => g.isSome) + 1 := by simp
      rw [hcp]
      simp only [guestEntries, List.append_assoc, loadEntries]
      rw [get16_put16 i (by simp at hbound; omega)]
      simp only
      rw [getBlob_putBlob b (hbodies b (List.mem_cons_self _ _)) _]
      simp only
      have hlen' : (F.set i (some b)).length = (i + 1) + t.length := by
        rw [List.length_set]
        simp at hlen
        omega
      have hdrop'' : (F.set i (some b)).drop (i + 1) =
          List.replicate t.length none := by
        rw [List.drop_set]
        rw [if_pos (by omega)]
        exact hdrop'
      rw [ih (F.set i (some b)) (i + 1) rest hlen' hdrop''
        (by simp at hbound; omega)
        (fun b' hb' => hbodies b' (List.mem_cons_of_mem _ hb'))]
      have htake : (F.set i (some b)).take (i + 1) = F.take i ++ [some b] := by
        rw [List.take_succ]
        have h1 : (F.set i (some b)).take i = F.take i := by
          rw [List.set_take]
          apply List.set_eq_of_length_le
          rw [List.length_take]
          omega
        have h2 : (F.set i (some b))[i]? = some (some b) := by
          apply List.getElem?_set_eq_of_lt
          simp at hlen
          omega
        rw [h1, h2]
        rfl
      rw [htake]
      simp

/-- Under the free-cursor validity assumptions, `CountActiveGuests`
(which assumes all slots below `free_idx` active) equals the true
number of active slots. -/
theorem countActive_countP (s : GuestsState)
    (hfree : s.freeIdx ≤ s.guests.length)
    (hinv : ∀ j, j < s.freeIdx → s.guests[j]? ≠ some none) :
    countActiveGuests s = s.guests.countP (fun g => g.isSome) := by
  unfold countActiveGuests
  conv_rhs => rw [← List.take_append_drop s.freeIdx s.guests]
  rw [List.countP_append]
  have htake : (s.guests.take s.freeIdx).countP (fun g => g.isSome) =
      s.freeIdx := by
    have hall : ∀ a ∈ s.guests.take s.freeIdx,
        (fun (g : Option GuestBody) => g.isSome) a = true := by
      intro a ha
      rw [List.mem_take_iff_getElem] at ha
      obtain ⟨m, hm, hma⟩ := ha
      have hmfi : m < s.freeIdx := lt_of_lt_of_le hm (min_le_left ..)
      have hmlen : m < s.guests.length := lt_of_lt_of_le hm (min_le_right ..)
      have hsome : s.guests[m]? = some a := by
        rw [List.getElem?_eq_getElem hmlen, hma]
      cases a with
      | none => exact absurd hsome (hinv m hmfi)
      | some _ => simp
    rw [List.countP_eq_length.mpr hall, List.length_take]
    omega
  rw [htake]

/-- Claim C1. For every valid `Guests` pool state (fields within their
machine widths, every slot below `free_idx` active, guest bodies
restorable), saving with `Guests::Save` under the `GSTS` version-2
pattern and loading the produced bytes with `Guests::Load` into a fresh
pool reproduces the state exactly on every externally visible field:
`start_voxel.x/y`, `daily_frac`, `next_daily_index`, `free_idx`, the
five complaint counters and timers, and the set of active slot indices
with their per-guest state. -/
theorem guests_save_load_roundtrip (s : GuestsState)
    (hX : -32768 ≤ s.startX) (hX' : s.startX < 32768)
    (hY : -32768 ≤ s.startY) (hY' : s.startY < 32768)
    (hdf : s.dailyFrac < 65536) (hnd : s.nextDailyIndex < 65536)
    (hfi32 : s.freeIdx < 4294967296)
    (hc1 : s.ccHunger < 65536) (hc2 : s.ccThirst < 65536)
    (hc3 : s.ccWaste < 65536) (hc4 : s.ccLitter < 65536)
    (hc5 : s.ccVandalism < 65536)
    (ht1 : s.tsHunger < 4294967296) (ht2 : s.tsThirst < 4294967296)
    (ht3 : s.tsWaste < 4294967296) (ht4 : s.tsLitter < 4294967296)
    (ht5 : s.tsVandalism < 4294967296)
    (hN16 : s.guests.length < 65536)
    (hfree : s.freeIdx ≤ s.guests.length)
    (hinv : ∀ j, j < s.freeIdx → s.guests[j]? ≠ some none)
    (hbodies : ∀ b : GuestBody, some b ∈ s.guests → b.length < 4294967296) :
    loadGuests (saveGuests s) (freshGuests s.guests.length) = some s := by
  have hcount := countActive_countP s hfree hinv
  have hcountlt : countActiveGuests s < 4294967296 := by
    have hle := List.countP_le_length (fun (g : Option GuestBody) => g.isSome)
      (l := s.guests)
    omega
  have hentries := loadEntries_guestEntries s.guests
    (List.replicate s.guests.length none) 0 END_MARKER
    (by simp) (by simp) (by omega) hbodies
  have hfreshg : (freshGuests s.guests.length).guests =
      List.replicate s.guests.length none := rfl
  simp only [saveGuests, loadGuests, List.append_assoc,
    getBytes_append,
    get32_put32 2 (by norm_num),
    getI16_putI16 s.startX hX hX',
    getI16_putI16 s.startY hY hY',
    get16_put16 s.dailyFrac hdf,
    get16_put16 s.nextDailyIndex hnd,
    get32_put32 s.freeIdx hfi32,
    get16_put16 s.ccHunger hc1,
    get16_put16 s.ccThirst hc2,
    get16_put16 s.ccWaste hc3,
    get16_put16 s.ccLitter hc4,
    get16_put16 s.ccVandalism hc5,
    get32_put32 s.tsHunger ht1,
    get32_put32 s.tsThirst ht2,
    get32_put32 s.tsWaste ht3,
    get32_put32 s.tsLitter ht4,
    get32_put32 s.tsVandalism ht5,
    if_true, eq_self_iff_true,
    show ¬((2 : Nat) = 0) from by norm_num,
    show (2 : Nat) ≤ 2 from le_refl 2,
    if_false, loadComplaints,
    show (1 : Nat) < 2 from by norm_num,
    loadGuestList,
    get32_put32 (countActiveGuests s) hcountlt]
  rw [hfreshg, hcount, hentries]
  simp only [List.take_zero, List.nil_append]
  have hclose : closePattern END_MARKER = some [] := by decide
  rw [hclose]

/-- Witness for `guests_save_load_roundtrip` at `exampleGuests`. -/
theorem guests_save_load_roundtrip_witness :
    loadGuests (saveGuests exampleGuests)
      (freshGuests exampleGuests.guests.length) = some exampleGuests :=
  guests_save_load_roundtrip exampleGuests (by decide) (by decide) (by decide)
    (by decide) (by decide) (by decide) (by decide) (by decide) (by decide)
    (by decide) (by decide) (by decide) (by decide) (by decide) (by decide)
    (by decide) (by decide) (by decide) (by decide)
    (by
      intro j hj
      have hj0 : j = 0 := by
        have : exampleGuests.freeIdx = 1 := rfl
        omega
      subst hj0
      decide)
    (by
      intro b hb
      have hb' : b = [1] ∨ b = [2, 3] ∨ b = [] := by
        simpa [exampleGuests, freshGuests] using hb
      rcases hb' with rfl | rfl | rfl <;> decide)

end FreeRCT
